import Mathlib

/-!
Verification of the SHACL shapes-generation plugin (cmem-plugin-shapes).

The development shallowly embeds the module cmem_plugin_shapes/plugin_shapes.py:
RDF terms and triples, the rdflib graph (a set of triples), the deterministic
shape identifiers, the shape synthesis (create_shapes), the extraction query,
the configuration constructor, the prefix table, the name resolver and the
catalog reconciliation (add_to_graph / add_to_label / execute), together with a
model of the external collaborators (SPARQL store, URL validator, uuid5) at
their specified interfaces.
-/

namespace ShapesPlugin

/-- RDF terms as they occur in the generated graphs: IRIs and literals with an
optional language tag and an optional datatype IRI. -/
inductive RTerm where
  | iri (value : String)
  | lit (value : String) (lang : Option String) (datatype : Option String)
deriving DecidableEq, Repr

/-- One RDF triple. -/
structure Triple where
  subj : RTerm
  pred : RTerm
  obj : RTerm
deriving DecidableEq, Repr

/-- Adding a triple to an rdflib Graph: a graph is a set of triples, so adding a
triple that is already present leaves the graph unchanged. -/
def gadd (g : List Triple) (t : Triple) : List Triple :=
  if t ∈ g then g else g ++ [t]

def rdf_type : String := "http://www.w3.org/1999/02/22-rdf-syntax-ns#type"
def rdfs_label : String := "http://www.w3.org/2000/01/rdf-schema#label"
def rdfs_comment : String := "http://www.w3.org/2000/01/rdf-schema#comment"
def sh_NodeShape : String := "http://www.w3.org/ns/shacl#NodeShape"
def sh_PropertyShape : String := "http://www.w3.org/ns/shacl#PropertyShape"
def sh_targetClass : String := "http://www.w3.org/ns/shacl#targetClass"
def sh_path : String := "http://www.w3.org/ns/shacl#path"
def sh_nodeKind : String := "http://www.w3.org/ns/shacl#nodeKind"
def sh_IRI : String := "http://www.w3.org/ns/shacl#IRI"
def sh_Literal : String := "http://www.w3.org/ns/shacl#Literal"
def sh_name : String := "http://www.w3.org/ns/shacl#name"
def sh_property : String := "http://www.w3.org/ns/shacl#property"
def shui_ShapeCatalog : String := "https://vocab.eccenca.com/shui/ShapeCatalog"
def shui_showAlways : String := "https://vocab.eccenca.com/shui/showAlways"
def shui_inversePath : String := "https://vocab.eccenca.com/shui/inversePath"
def dcterms_source : String := "http://purl.org/dc/terms/source"
def dcterms_created : String := "http://purl.org/dc/terms/created"
def dcterms_modified : String := "http://purl.org/dc/terms/modified"
def dcterms_creator : String := "http://purl.org/dc/terms/creator"
def xsd_boolean : String := "http://www.w3.org/2001/XMLSchema#boolean"
def xsd_dateTime : String := "http://www.w3.org/2001/XMLSchema#dateTime"

/-- Python str.split with a non-empty separator, on character lists; fuel-driven
so that it is structurally recursive (the fuel is the length of the input, which
bounds the number of steps). -/
def split_str_go (sep : List Char) : Nat → List Char → List Char → List (List Char)
  | _, acc, [] => [acc.reverse]
  | 0, acc, l => [acc.reverse ++ l]
  | fuel+1, acc, c :: rest =>
    if sep.isPrefixOf (c :: rest) then
      acc.reverse :: split_str_go sep fuel [] (List.drop (sep.length - 1) rest)
    else split_str_go sep fuel (c :: acc) rest

/-- Python s.split(sep) for a non-empty separator string. -/
def py_split (s : String) (sep : String) : List String :=
  (split_str_go sep.data s.data.length [] s.data).map (fun l => ⟨l⟩)

/-- Python s.split(sep, 1)[0]: the part of the string before the first
occurrence of the separator character (the whole string when absent). -/
def split1_before (sepc : Char) (s : String) : String :=
  ⟨s.data.takeWhile (fun c => c ≠ sepc)⟩

/-- Python s.split(sep, 1)[1]: the part after the first occurrence of the
separator character, or none when the separator is absent (where the source
would raise an IndexError). -/
def split1_after (sepc : Char) (s : String) : Option String :=
  match s.data.dropWhile (fun c => c ≠ sepc) with
  | [] => none
  | _ :: rest => some ⟨rest⟩

/-- Python s.startswith(p), for one candidate. -/
def py_startswith (s : String) (p : String) : Bool :=
  p.data.isPrefixOf s.data

/-- Namespace constant NAMESPACE_URL of the uuid module. -/
def NAMESPACE_URL : String := "6ba7b811-9dad-11d1-80b4-00c04fd430c8"

/-- Modelled from the spec: Python's uuid5 (not part of this repository) is the
external hash behind ShapeIdentifier. The spec's contract for ShapeIdentifier is
that it is a deterministic, content-derived value of the hashed canonical string
(with a fixed namespace constant) on which repeated runs converge, so the hash
is modelled as an injective encoding of the namespace and the name. -/
def uuid5 (ns : String) (name : String) : String :=
  ns ++ "-" ++ name

/-- Ensuring a namespace ends with a slash or a hash (format_namespace). -/
def format_namespace (iri : String) : String :=
  if iri.endsWith "/" || iri.endsWith "#" then iri else iri ++ "/"

/-- Identifier of a node shape: uuid5(NAMESPACE_URL, cls). -/
def class_shape_id (cls : String) : String :=
  uuid5 NAMESPACE_URL cls

/-- Identifier of a property shape: uuid5 of the property IRI, with the string
"inverse" appended for the inverse direction. -/
def prop_shape_id (property : String) (inverse : Bool) : String :=
  uuid5 NAMESPACE_URL (property ++ (if inverse then "inverse" else ""))

/-- Subject IRI of the node shape of a class. -/
def node_shape_uri (shapes_graph_iri : String) (cls : String) : String :=
  format_namespace shapes_graph_iri ++ class_shape_id cls

/-- Subject IRI of the property shape of a (property, direction) pair. -/
def prop_shape_uri (shapes_graph_iri : String) (property : String) (inverse : Bool) : String :=
  format_namespace shapes_graph_iri ++ prop_shape_id property inverse

/-- One row of the grouped extraction result: a property observed on a class,
with its literal-object flag and its direction. -/
structure PropObs where
  property : String
  data : Bool
  inverse : Bool
deriving DecidableEq, Repr

/-- State threaded through create_shapes: the two identifier sets, the shape
counter and the shapes graph under construction. -/
structure ShapesState where
  class_uuids : List String
  prop_uuids : List String
  shapes_count : Nat
  shapes_graph : List Triple
deriving Repr

/-- Triples of one property shape, in the source's insertion order: type, path,
node kind, always-show flag, the inverse-path flag for the inverse direction,
and the two name triples (the name already carries the arrow marker when
inverse). -/
def prop_shape_triples (shape_uri : String) (prop : PropObs) (name1 : String) : List Triple :=
  [⟨.iri shape_uri, .iri rdf_type, .iri sh_PropertyShape⟩,
   ⟨.iri shape_uri, .iri sh_path, .iri prop.property⟩,
   ⟨.iri shape_uri, .iri sh_nodeKind, .iri (if prop.data then sh_Literal else sh_IRI)⟩,
   ⟨.iri shape_uri, .iri shui_showAlways, .lit ("true") none (some xsd_boolean)⟩] ++
  (if prop.inverse then
    [⟨.iri shape_uri, .iri shui_inversePath, .lit ("true") none (some xsd_boolean)⟩]
   else []) ++
  [⟨.iri shape_uri, .iri sh_name, .lit name1 (some ("en")) none⟩,
   ⟨.iri shape_uri, .iri rdfs_label, .lit name1 (some ("en")) none⟩]

/-- Processing of one property observation inside create_shapes (the inner loop
body): emit the property shape when its identifier is unseen, then always link
it to the current node shape with one sh:property triple. -/
def process_prop (shapes_graph_iri : String) (name_of : String → String)
    (node_uri : String) (st : ShapesState) (prop : PropObs) : ShapesState :=
  let prop_uuid := prop_shape_id prop.property prop.inverse
  let shape_uri := prop_shape_uri shapes_graph_iri prop.property prop.inverse
  let st1 :=
    if prop_uuid ∈ st.prop_uuids then st
    else
      let name0 := name_of prop.property
      let name1 := if prop.inverse then "← " ++ name0 else name0
      { st with
        shapes_count := st.shapes_count + 1,
        shapes_graph := (prop_shape_triples shape_uri prop name1).foldl gadd st.shapes_graph,
        prop_uuids := st.prop_uuids ++ [prop_uuid] }
  let g_final := gadd st1.shapes_graph ⟨.iri node_uri, .iri sh_property, .iri shape_uri⟩
  { st1 with shapes_graph := g_final }

/-- Triples of one node shape, in the source's insertion order. -/
def node_shape_triples (node_uri : String) (cls : String) (name : String) : List Triple :=
  [⟨.iri node_uri, .iri rdf_type, .iri sh_NodeShape⟩,
   ⟨.iri node_uri, .iri sh_targetClass, .iri cls⟩,
   ⟨.iri node_uri, .iri sh_name, .lit name (some ("en")) none⟩,
   ⟨.iri node_uri, .iri rdfs_label, .lit name (some ("en")) none⟩]

/-- Processing of one class entry inside create_shapes (the outer loop body):
emit the node shape when its identifier is unseen, then process every property
observation of the class. -/
def process_class (shapes_graph_iri : String) (name_of : String → String)
    (st : ShapesState) (entry : String × List PropObs) : ShapesState :=
  let cls := entry.1
  let class_uuid := class_shape_id cls
  let node_uri := node_shape_uri shapes_graph_iri cls
  let st1 :=
    if class_uuid ∈ st.class_uuids then st
    else
      let name := name_of cls
      { st with
        shapes_count := st.shapes_count + 1,
        shapes_graph := (node_shape_triples node_uri cls name).foldl gadd st.shapes_graph,
        class_uuids := st.class_uuids ++ [class_uuid] }
  entry.2.foldl (process_prop shapes_graph_iri name_of node_uri) st1

/-- The shape synthesis create_shapes: a fold of process_class over the grouped
extraction result. The name resolver is passed as a resolved oracle (the
composition of the external title service with get_name); a name-resolution
failure aborts the run before any write, so it does not affect the graphs
considered here. -/
def create_shapes (shapes_graph_iri : String) (name_of : String → String)
    (class_dict : List (String × List PropObs)) (st : ShapesState) : ShapesState :=
  class_dict.foldl (process_class shapes_graph_iri name_of) st

/-- Initial shapes graph (init_shapes_graph): the catalog type marker and the
source-graph reference. -/
def init_shapes_graph (shapes_graph_iri : String) (data_graph_iri : String) : List Triple :=
  gadd (gadd [] ⟨.iri shapes_graph_iri, .iri rdf_type, .iri shui_ShapeCatalog⟩)
    ⟨.iri shapes_graph_iri, .iri dcterms_source, .iri data_graph_iri⟩

/-- Initial synthesis state as execute sets it up. -/
def init_state (shapes_graph_iri : String) (data_graph_iri : String) : ShapesState :=
  ⟨[], [], 0, init_shapes_graph shapes_graph_iri data_graph_iri⟩

/-- Truth of the isLiteral SPARQL function on a term. -/
def is_literal_term : RTerm → Bool
  | .lit _ _ _ => true
  | .iri _ => false

/-- String value of a term as delivered in the SPARQL JSON bindings. -/
def term_value : RTerm → String
  | .iri v => v
  | .lit v _ _ => v

/-- One row of the extraction query result, before parsing: the class IRI, the
property IRI, and the two flag strings produced by the BIND clauses. -/
structure QueryBinding where
  cls : String
  property : String
  data : String
  inverse : String
deriving DecidableEq, Repr

/-- Modelled from the spec: the external SPARQL engine's evaluation of the
schema-extraction query posted by get_class_dict over the data graph. The query
unions a forward branch (typed subject, outgoing predicate, literal objects
tagged) and an inverse branch (typed object, incoming predicate, never
literal); both branches exclude the ignore-list predicates with the FILTER
produced by iri_list_to_filter, and SELECT DISTINCT deduplicates the rows. -/
def eval_class_query (data_graph : List Triple) (ignore : List String) : List QueryBinding :=
  let ignored := ignore.map RTerm.iri
  let fwd := data_graph.flatMap (fun t1 =>
    if t1.pred = RTerm.iri rdf_type then
      data_graph.filterMap (fun t2 =>
        if t2.subj = t1.subj ∧ t2.pred ∉ ignored then
          some { cls := term_value t1.obj, property := term_value t2.pred,
                 data := if is_literal_term t2.obj then "true" else "false",
                 inverse := "false" }
        else none)
    else [])
  let inv := data_graph.flatMap (fun t1 =>
    if t1.pred = RTerm.iri rdf_type then
      data_graph.filterMap (fun t2 =>
        if t2.obj = t1.subj ∧ t2.pred ∉ ignored then
          some { cls := term_value t1.obj, property := term_value t2.pred,
                 data := "false", inverse := "true" }
        else none)
    else [])
  (fwd ++ inv).dedup

def TRUE_SET : List String := ["yes", "true", "t", "y", "1"]

def FALSE_SET : List String := ["no", "false", "f", "n", "0"]

/-- Python str.lower restricted to the ASCII mapping used by the flag strings. -/
def py_lower (s : String) : String :=
  ⟨s.data.map Char.toLower⟩

/-- Conversion of a binding string to a boolean (str2bool): raising on anything
outside the two allowed sets. -/
def str2bool (value : String) : Except String Bool :=
  let v := py_lower value
  if v ∈ TRUE_SET then .ok true
  else if v ∈ FALSE_SET then .ok false
  else .error ("Expected one of the allowed boolean strings.")

/-- Appending a value under a key of a Python dict of lists, creating the key at
the end on first use (class_dict grouping in get_class_dict). -/
def dict_insert (d : List (String × List PropObs)) (key : String) (v : PropObs) :
    List (String × List PropObs) :=
  match d with
  | [] => [(key, [v])]
  | kv :: rest =>
    if kv.1 = key then (kv.1, kv.2 ++ [v]) :: rest else kv :: dict_insert rest key v

/-- Grouping of the query bindings by class IRI (the loop of get_class_dict),
parsing the two flag strings with str2bool and propagating its error. -/
def build_class_dict (bindings : List QueryBinding) (d : List (String × List PropObs)) :
    Except String (List (String × List PropObs)) :=
  match bindings with
  | [] => .ok d
  | b :: rest =>
    match str2bool b.data, str2bool b.inverse with
    | .ok dv, .ok iv => build_class_dict rest (dict_insert d b.cls ⟨b.property, dv, iv⟩)
    | .error e, _ => .error e
    | .ok _, .error e => .error e

/-- Modelled from the spec: the external URL validator (validators.url). The
spec requires every configured graph or property IRI to be a syntactically
valid absolute URL; the validator is modelled as requiring an http or https
scheme followed by a nonempty remainder without spaces or newlines. It rejects
the empty string and any string with an empty scheme part. -/
def is_valid_url (s : String) : Bool :=
  ((py_startswith s ("http://") && 7 < s.data.length) ||
   (py_startswith s ("https://") && 8 < s.data.length)) &&
  s.data.all (fun c => c ≠ ' ' && c ≠ '\n')

/-- Validation loop of the constructor over the split ignore-properties lines:
every line must be a valid URL, and the first offending line raises. -/
def validate_ignore_list : List String → Except String (List String)
  | [] => .ok []
  | p :: rest =>
    if is_valid_url p then
      match validate_ignore_list rest with
      | .ok l => .ok (p :: l)
      | .error e => .error e
    else .error ("Ignored property IRI invalid: " ++ p)

def LABEL : String := "Generate SHACL shapes from data"

/-- Validated configuration produced by the constructor. -/
structure PluginConfig where
  data_graph_iri : String
  shapes_graph_iri : String
  ignore_properties : List String
  existing_graph : String
  import_shapes : Bool
  prefix_cc : Bool
  replace : Bool
  plugin_provenance : Bool
  label : String
deriving DecidableEq, Repr

/-- Constructor of the plugin (ShapesPlugin.__init__): validates the two graph
IRIs, splits the ignore-properties string on newlines validating every line,
sets the replace flag and checks the policy value. -/
def shapes_plugin_init (data_graph_iri : String) (shapes_graph_iri : String)
    (existing_graph : String) (import_shapes : Bool) (prefix_cc : Bool)
    (ignore_properties : String) (plugin_provenance : Bool) : Except String PluginConfig :=
  if !is_valid_url data_graph_iri then .error ("Data graph IRI parameter is invalid.")
  else if !is_valid_url shapes_graph_iri then .error ("Shapes graph IRI parameter is invalid.")
  else
    match validate_ignore_list (py_split ignore_properties ("\n")) with
    | .error e => .error e
    | .ok ignored =>
      if !(existing_graph == "stop" || existing_graph == "replace" || existing_graph == "add")
      then .error ("Handle existing output graph parameter is invalid " ++ existing_graph ++ ".")
      else
        .ok { data_graph_iri := data_graph_iri, shapes_graph_iri := shapes_graph_iri,
              ignore_properties := ignored, existing_graph := existing_graph,
              import_shapes := import_shapes, prefix_cc := prefix_cc,
              replace := existing_graph == "replace",
              plugin_provenance := plugin_provenance, label := LABEL }

/-- Python dict.setdefault(key, []).append(v) on an insertion-ordered dict of
lists. -/
def setdefault_append (d : List (String × List String)) (key : String) (v : String) :
    List (String × List String) :=
  match d with
  | [] => [(key, [v])]
  | kv :: rest =>
    if kv.1 = key then (kv.1, kv.2 ++ [v]) :: rest else kv :: setdefault_append rest key v

/-- Inversion of a prefix directory (format_prefixes): every (prefix, namespace)
pair of the source dict appends "prefix:" to the candidate list of its
namespace in the accumulating table. -/
def format_prefixes (src : List (String × String)) (formatted : List (String × List String)) :
    List (String × List String) :=
  src.foldl (fun acc kv => setdefault_append acc kv.2 (kv.1 ++ ":")) formatted

/-- Prefix table construction (get_prefixes): the project prefixes are formatted
first, then the external directory (the fetched prefix.cc content when the flag
is set and the fetch succeeded with a nonempty result, the bundled local file
otherwise) is formatted into the same table, appending after the project
candidates. A fetch failure is modelled as a none value. -/
def get_prefixes (project : List (String × String)) (fetched : Option (List (String × String)))
    (local_cc : List (String × String)) (use_cc : Bool) : List (String × List String) :=
  let prefixes := format_prefixes project []
  let cc0 : Option (List (String × String)) := if use_cc then fetched else none
  let cc1 : List (String × String) :=
    match cc0 with
    | none => local_cc
    | some l => if l.isEmpty || !use_cc then local_cc else l
  if cc1.isEmpty then prefixes else format_prefixes cc1 prefixes

/-- Candidate list of a namespace in a prefix table (empty when absent; the
table never stores empty lists). -/
def lookup_cands (d : List (String × List String)) (ns : String) : List String :=
  match d with
  | [] => []
  | kv :: rest => if kv.1 = ns then kv.2 else lookup_cands rest ns

/-- Candidates a prefix directory contributes for one namespace, in source
order. -/
def cands_of (src : List (String × String)) (ns : String) : List String :=
  (src.filter (fun kv => kv.2 = ns)).map (fun kv => kv.1 ++ ":")

/-- Prefix-table construction as the claim words it: start from the external
directory and then overlay the project prefixes by appending them to each
namespace's candidate list. Stated from the spec, for comparison with
get_prefixes. -/
def get_prefixes_claimed (project : List (String × String))
    (external : List (String × String)) : List (String × List String) :=
  format_prefixes project (format_prefixes external [])

/-- Modelled from the spec: rdflib's split_uri (external to the repository)
splits an IRI into namespace and local name at the last slash or hash, and
fails when no local name is separable. -/
def last_sep_split (l : List Char) : Option (List Char × List Char) :=
  let loc := (l.reverse.takeWhile (fun c => c ≠ '/' && c ≠ '#')).reverse
  if loc.length = 0 || loc.length = l.length then none
  else some (l.take (l.length - loc.length), loc)

/-- Namespace and local name of an IRI, with the error get_name raises when the
split fails. -/
def split_uri (iri : String) : Except String (String × String) :=
  match last_sep_split iri.data with
  | some (ns, loc) => .ok (⟨ns⟩, ⟨loc⟩)
  | none => .error ("Invalid class or property (" ++ iri ++ ").")

/-- Response of the external title service: the title and whether it was
mechanically derived from the IRI. -/
structure TitleResponse where
  title : String
  fromIri : Bool
deriving DecidableEq, Repr

/-- Shape-name resolution (get_name), given the prefix table and the title
service's response for the IRI: when the namespace has known candidate
prefixes, a fromIri title starting with one of them is stripped of it (with the
leading colon token recomputed when several candidates exist), otherwise the
fromIri title is split at its first underscore keeping the remainder, raising
with the offending title when it has none; the chosen compact prefix is
appended parenthetically in every non-error case. -/
def get_name (prefixes : List (String × List String)) (iri : String) (resp : TitleResponse) :
    Except String String :=
  match split_uri iri with
  | .error e => .error e
  | .ok (ns, _loc) =>
    match prefixes.find? (fun kv => kv.1 = ns) with
    | none => .ok resp.title
    | some kv =>
      let cands := kv.2
      let pfx0 := cands.headD ""
      if resp.fromIri then
        if cands.any (fun c => py_startswith resp.title c) then
          let pfx := if 1 < cands.length then split1_before ':' resp.title ++ ":" else pfx0
          .ok ((⟨resp.title.data.drop pfx.data.length⟩ : String) ++ " (" ++ pfx ++ ")")
        else
          match split1_after '_' resp.title with
          | some tail => .ok (tail ++ " (" ++ pfx0 ++ ")")
          | none => .error (resp.title ++ " " ++ String.intercalate ", " cands)
      else .ok (resp.title ++ " (" ++ pfx0 ++ ")")

/-- Metadata of one graph in the store's graph list: its IRI and, when present,
the title of its label. -/
structure GraphMeta where
  iri : String
  label : Option String
deriving DecidableEq, Repr

/-- Provenance payload (result of get_provenance when the task type was found):
the fresh plugin IRI, its type, its label, and one (name, parameter IRI, value)
entry per declared parameter. -/
structure ProvInfo where
  plugin_iri : String
  plugin_type : String
  plugin_label : String
  parameters : List (String × String × String)
deriving DecidableEq, Repr

/-- Store-mutating calls the plugin can issue, with their payloads: the bulk
graph write of create_graph, the INSERT DATA of add_to_graph, the label
deletion of remove_label, the two dcterms:modified updates of add_to_graph, the
dcterms:created insert of create_graph, the owl:imports insert of
import_shapes_graph and the provenance insert of post_provenance. -/
inductive StoreWrite where
  | post_streamed (graph : String) (triples : List Triple) (replace : Bool)
  | insert_data (graph : String) (triples : List Triple)
  | delete_label (graph : String) (label : String)
  | delete_modified_lt (graph : String) (now : String)
  | insert_modified_if_absent (graph : String) (now : String)
  | insert_created (graph : String) (now : String)
  | insert_import (catalog : String) (imported : String)
  | insert_provenance (graph : String) (info : ProvInfo)
deriving DecidableEq, Repr

/-- Label creation (create_label): an empty argument selects the default label
naming the source data graph. -/
def create_label (cfg : PluginConfig) (g : List Triple) (label : String) : List Triple :=
  let label1 := if label = "" then "Shapes for: " ++ cfg.data_graph_iri else label
  gadd g ⟨.iri cfg.shapes_graph_iri, .iri rdfs_label, .lit label1 none none⟩

/-- Backup of a malformed previous label as an rdfs:comment (backup_label). -/
def backup_label (cfg : PluginConfig) (g : List Triple) (label : String) : List Triple :=
  gadd g ⟨.iri cfg.shapes_graph_iri, .iri rdfs_comment,
    .lit ("Previous label: " ++ label) none none⟩

/-- Source-graph list read off an existing label: the part after the default
marker, split on comma-space. -/
def source_split (label : String) : List String :=
  py_split ((py_split label ("Shapes for: ")).getLastD "") (", ")

/-- Label reconciliation of the add policy (add_to_label): returns the label
deletion to post and the updated in-memory shapes graph. A missing or empty
existing label gets a fresh default label; a label already listing the source
graph is kept; otherwise the old label is deleted from the store and either
extended (well-formed) or backed up as a comment and replaced by a fresh
default label (malformed). -/
def add_to_label (cfg : PluginConfig) (meta : GraphMeta) (g : List Triple) :
    List StoreWrite × List Triple :=
  match meta.label with
  | none => ([], create_label cfg g (""))
  | some label =>
    if label = "" then ([], create_label cfg g (""))
    else
      let source_graphs := source_split label
      if cfg.data_graph_iri ∈ source_graphs then ([], g)
      else
        let ops := [StoreWrite.delete_label cfg.shapes_graph_iri label]
        if !(source_graphs.all is_valid_url) || !(py_startswith label ("Shapes for: ")) then
          (ops, create_label cfg (backup_label cfg g label) (""))
        else
          (ops, create_label cfg g (label ++ ", " ++ cfg.data_graph_iri))

/-- Writes of create_graph: a default label is added to the in-memory graph,
the graph is streamed to the store (with the replace flag of the
configuration), and the creation timestamp is inserted. -/
def create_graph_writes (cfg : PluginConfig) (now : String) (st : ShapesState) :
    List StoreWrite :=
  let g := create_label cfg st.shapes_graph ("")
  [StoreWrite.post_streamed cfg.shapes_graph_iri g cfg.replace,
   StoreWrite.insert_created cfg.shapes_graph_iri now]

/-- Writes of add_to_graph: the label reconciliation's deletion, the INSERT
DATA of the serialized in-memory graph, then the removal of any earlier
modification timestamp and the conditional insert of the current one. -/
def add_to_graph_writes (cfg : PluginConfig) (now : String) (meta : GraphMeta)
    (st : ShapesState) : List StoreWrite :=
  let lr := add_to_label cfg meta st.shapes_graph
  lr.1 ++ [StoreWrite.insert_data cfg.shapes_graph_iri lr.2,
           StoreWrite.delete_modified_lt cfg.shapes_graph_iri now,
           StoreWrite.insert_modified_if_absent cfg.shapes_graph_iri now]

def SHACL_CATALOG : String := "https://vocab.eccenca.com/shacl/"

def owl_imports : String := "http://www.w3.org/2002/07/owl#imports"

def di_CustomTask : String := "https://vocab.eccenca.com/di/CustomTask"

/-- Environment of one run: the graph list as read before the stop check and as
read again in the add branch, the data graph behind the extraction query, the
resolved-name oracle, the current timestamp and the provenance lookup result. -/
structure Env where
  graphs_list : List GraphMeta
  graphs_list_add : List GraphMeta
  data_graph : List Triple
  name_of : String → String
  now : String
  prov : Option ProvInfo

/-- Execution of the plugin (execute): the trace of store writes it posts, and
the error it raises in place of a result, when any. The stop check precedes
every write; the extraction, synthesis and reconciliation follow, then the
optional provenance and catalog-import writes. -/
def execute (cfg : PluginConfig) (env : Env) : List StoreWrite × Option String :=
  let graph_exists := cfg.shapes_graph_iri ∈ env.graphs_list.map (fun m => m.iri)
  if cfg.existing_graph = "stop" ∧ graph_exists then
    ([], some ("Graph <" ++ cfg.shapes_graph_iri ++ "> already exists."))
  else
    match build_class_dict (eval_class_query env.data_graph cfg.ignore_properties) [] with
    | .error e => ([], some e)
    | .ok class_dict =>
      let st := create_shapes cfg.shapes_graph_iri env.name_of class_dict
        (init_state cfg.shapes_graph_iri cfg.data_graph_iri)
      let writes1 :=
        if cfg.existing_graph ≠ "add" then create_graph_writes cfg env.now st
        else
          match env.graphs_list_add.find? (fun m => m.iri = cfg.shapes_graph_iri) with
          | some meta => add_to_graph_writes cfg env.now meta st
          | none => create_graph_writes cfg env.now st
      let writes2 :=
        if cfg.plugin_provenance then
          match env.prov with
          | some info => [StoreWrite.insert_provenance cfg.shapes_graph_iri info]
          | none => []
        else []
      let writes3 :=
        if cfg.import_shapes then [StoreWrite.insert_import SHACL_CATALOG cfg.shapes_graph_iri]
        else []
      (writes1 ++ writes2 ++ writes3, none)

/-- Lexicographic character-list comparison (strict). -/
def chars_lt : List Char → List Char → Bool
  | [], [] => false
  | [], _ :: _ => true
  | _ :: _, [] => false
  | a :: as, b :: bs => if a < b then true else if b < a then false else chars_lt as bs

/-- Comparison used by the modification-timestamp FILTER: a literal value
earlier than the current timestamp (ISO timestamps of the fixed format compare
consistently in lexicographic order); a non-literal never satisfies the
dateTime filter. -/
def term_lt (t : RTerm) (now : String) : Bool :=
  match t with
  | .lit v _ _ => chars_lt v.data now.data
  | .iri _ => false

/-- Triples of the provenance insert of post_provenance. -/
def prov_triples (graph : String) (info : ProvInfo) : List Triple :=
  ⟨.iri graph, .iri dcterms_creator, .iri info.plugin_iri⟩ ::
  ⟨.iri info.plugin_iri, .iri rdf_type, .iri info.plugin_type⟩ ::
  ⟨.iri info.plugin_iri, .iri rdf_type, .iri di_CustomTask⟩ ::
  ⟨.iri info.plugin_iri, .iri rdfs_label, .lit info.plugin_label none none⟩ ::
  info.parameters.map (fun p => ⟨.iri info.plugin_iri, .iri p.2.1, .lit p.2.2 none none⟩)

/-- Modelled from the spec: the external store's application of one posted
write to the target graph (a set of triples). Writes addressed to another
graph leave the target unchanged; INSERT adds the payload triples; the label
deletion removes exactly the posted plain-literal label triple; the
modification-timestamp deletion removes the catalog's dcterms:modified triples
whose value is earlier than the posted timestamp; the conditional
modification-timestamp insert adds the posted timestamp only when the catalog
currently has no dcterms:modified triple. -/
def apply_write (target : String) (store : List Triple) (w : StoreWrite) : List Triple :=
  match w with
  | .post_streamed g ts replace =>
    if g = target then (if replace then ts.foldl gadd [] else ts.foldl gadd store) else store
  | .insert_data g ts => if g = target then ts.foldl gadd store else store
  | .delete_label g label =>
    if g = target then
      store.filter (fun t => !(t == ⟨.iri target, .iri rdfs_label, .lit label none none⟩))
    else store
  | .delete_modified_lt g now =>
    if g = target then
      store.filter (fun t =>
        !(t.subj == RTerm.iri target && t.pred == RTerm.iri dcterms_modified &&
          term_lt t.obj now))
    else store
  | .insert_modified_if_absent g now =>
    if g = target then
      if store.any (fun t => t.subj == RTerm.iri target && t.pred == RTerm.iri dcterms_modified)
      then store
      else gadd store ⟨.iri target, .iri dcterms_modified, .lit now none (some xsd_dateTime)⟩
    else store
  | .insert_created g now =>
    if g = target then
      gadd store ⟨.iri target, .iri dcterms_created, .lit now none (some xsd_dateTime)⟩
    else store
  | .insert_import g imported =>
    if g = target then gadd store ⟨.iri g, .iri owl_imports, .iri imported⟩ else store
  | .insert_provenance g info =>
    if g = target then (prov_triples g info).foldl gadd store else store

/-- Sequential application of a write trace to the target graph. -/
def apply_writes (target : String) (store : List Triple) (ws : List StoreWrite) : List Triple :=
  ws.foldl (apply_write target) store

/-- Resulting target graph of one add-policy merge run against an existing
store. -/
def apply_add_to_graph (cfg : PluginConfig) (now : String) (meta : GraphMeta)
    (st : ShapesState) (store : List Triple) : List Triple :=
  apply_writes cfg.shapes_graph_iri store (add_to_graph_writes cfg now meta st)

/-- Type triple of the property shape of a (property, direction) pair, as
emitted by create_shapes. -/
def type_triple (shapes_graph_iri : String) (property : String) (inverse : Bool) : Triple :=
  ⟨.iri (prop_shape_uri shapes_graph_iri property inverse), .iri rdf_type, .iri sh_PropertyShape⟩

/-- Association triple linking the node shape of a class to the property shape
of a (property, direction) pair, as emitted by create_shapes. -/
def assoc_triple (shapes_graph_iri : String) (cls : String) (property : String)
    (inverse : Bool) : Triple :=
  ⟨.iri (node_shape_uri shapes_graph_iri cls), .iri sh_property,
   .iri (prop_shape_uri shapes_graph_iri property inverse)⟩

/-- Invariant of the synthesis state: every recorded property-shape identifier
already has its type triple in the graph. -/
def prop_inv (shapes_graph_iri : String) (st : ShapesState) : Prop :=
  ∀ u ∈ st.prop_uuids,
    (⟨.iri (format_namespace shapes_graph_iri ++ u), .iri rdf_type, .iri sh_PropertyShape⟩ :
      Triple) ∈ st.shapes_graph

/-- Absence of a property IRI as a sh:path value in a graph. -/
def no_path_to (p : String) (g : List Triple) : Prop :=
  ∀ t ∈ g, t.pred = RTerm.iri sh_path → t.obj ≠ RTerm.iri p

/-- Well-formedness of an RDF data graph: every predicate is an IRI. -/
def wf_graph (g : List Triple) : Prop :=
  ∀ t ∈ g, ∃ v, t.pred = RTerm.iri v

theorem str_ext {s t : String} (h : s.data = t.data) : s = t := by
  cases s; cases t; cases h; rfl

theorem append_inj_right {p a b : String} (h : p ++ a = p ++ b) : a = b := by
  have h2 := congrArg String.data h
  simp only [String.data_append] at h2
  exact str_ext (List.append_cancel_left h2)

theorem uuid5_inj {ns a b : String} (h : uuid5 ns a = uuid5 ns b) : a = b := by
  unfold uuid5 at h
  exact append_inj_right (p := ns ++ "-") h

theorem node_shape_uri_inj {sg c1 c2 : String} (h : node_shape_uri sg c1 = node_shape_uri sg c2) :
    c1 = c2 := by
  unfold node_shape_uri class_shape_id at h
  exact uuid5_inj (append_inj_right h)

theorem mem_gadd {g : List Triple} {t u : Triple} : u ∈ gadd g t ↔ u ∈ g ∨ u = t := by
  by_cases h : t ∈ g
  · simp only [gadd, if_pos h]
    exact ⟨Or.inl, fun hu => hu.elim id (fun e => e ▸ h)⟩
  · simp [gadd, if_neg h]

theorem gadd_nodup {g : List Triple} (hg : g.Nodup) (t : Triple) : (gadd g t).Nodup := by
  by_cases h : t ∈ g
  · simpa [gadd, if_pos h] using hg
  · simp only [gadd, if_neg h]
    simp [List.nodup_append, hg, h]

theorem foldl_gadd_mem {ts : List Triple} {g : List Triple} {t : Triple} :
    t ∈ ts.foldl gadd g ↔ t ∈ g ∨ t ∈ ts := by
  induction ts generalizing g with
  | nil => simp
  | cons a as ih =>
    simp only [List.foldl_cons, ih, mem_gadd, List.mem_cons]
    tauto

theorem foldl_gadd_subset {ts : List Triple} {g : List Triple} {t : Triple} (ht : t ∈ g) :
    t ∈ ts.foldl gadd g :=
  foldl_gadd_mem.mpr (Or.inl ht)

theorem foldl_gadd_nodup {ts : List Triple} {g : List Triple} (hg : g.Nodup) :
    (ts.foldl gadd g).Nodup := by
  induction ts generalizing g with
  | nil => exact hg
  | cons a as ih => exact ih (gadd_nodup hg a)

/-- C2: for every property IRI, the identifier of the forward direction differs
from the identifier of the inverse direction (the inverse identifier hashes the
property IRI with the string "inverse" appended), and the identifier function
is deterministic: the same class or (property, direction) input always yields
the same identifier. -/
theorem shape_identifier_distinct_and_deterministic (p : String) :
    prop_shape_id p false ≠ prop_shape_id p true ∧
    (∀ s : String, uuid5 NAMESPACE_URL s = uuid5 NAMESPACE_URL s) ∧
    (∀ q : String, ∀ d : Bool, prop_shape_id q d = prop_shape_id q d) := by
  refine ⟨?_, fun s => rfl, fun q d => rfl⟩
  intro h
  simp only [prop_shape_id, if_pos, if_neg] at h
  have h1 : p ++ "" = p ++ "inverse" := uuid5_inj h
  have h2 : ("" : String) = "inverse" := append_inj_right h1
  exact absurd (congrArg String.data h2) (by decide)

theorem lookup_setdefault_append (d : List (String × List String)) (k v ns : String) :
    lookup_cands (setdefault_append d k v) ns =
      if ns = k then lookup_cands d ns ++ [v] else lookup_cands d ns := by
  induction d with
  | nil =>
    by_cases h : ns = k
    · simp [setdefault_append, lookup_cands, h]
    · have h2 : ¬ (k = ns) := fun e => h e.symm
      simp [setdefault_append, lookup_cands, h, h2]
  | cons kv rest ih =>
    by_cases hk : kv.1 = k
    · simp only [setdefault_append, if_pos hk]
      by_cases hns : ns = k
      · have hkv : kv.1 = ns := by rw [hk, hns]
        simp [lookup_cands, hkv, hns]
      · have hkv : ¬ (kv.1 = ns) := fun e => hns (by rw [← e, hk])
        simp [lookup_cands, hkv, hns]
    · simp only [setdefault_append, if_neg hk]
      by_cases hns : kv.1 = ns
      · have hne : ¬ (ns = k) := fun e => hk (by rw [hns, e])
        simp [lookup_cands, hns, hne]
      · simp [lookup_cands, hns, ih]

theorem cands_of_cons (kv : String × String) (rest : List (String × String)) (ns : String) :
    cands_of (kv :: rest) ns =
      if kv.2 = ns then (kv.1 ++ ":") :: cands_of rest ns else cands_of rest ns := by
  by_cases h : kv.2 = ns
  · simp [cands_of, List.filter_cons, h]
  · simp [cands_of, List.filter_cons, h]

theorem lookup_format_prefixes (src : List (String × String))
    (d : List (String × List String)) (ns : String) :
    lookup_cands (format_prefixes src d) ns = lookup_cands d ns ++ cands_of src ns := by
  induction src generalizing d with
  | nil => simp [format_prefixes, cands_of]
  | cons kv rest ih =>
    simp only [format_prefixes, List.foldl_cons] at *
    rw [ih, lookup_setdefault_append, cands_of_cons]
    by_cases h : kv.2 = ns
    · simp [h]
    · have : ¬ (ns = kv.2) := fun e => h e.symm
      simp [h, this]

/-- C7 counterexample: with one project prefix and one external prefix for the
same namespace, get_prefixes puts the project candidate first and appends the
external one, not the other way around as the claim's construction
(get_prefixes_claimed) would. -/
theorem get_prefixes_order_counterexample :
    get_prefixes [("ex", "http://n/")] (some [("exa", "http://n/")]) [] true ≠
      get_prefixes_claimed [("ex", "http://n/")] [("exa", "http://n/")] := by
  decide

/-- C7 (amended): the prefix table starts from the project-scoped prefixes and
then overlays the external directory (the fetched one, or the local file when
no fetch result is available) by appending its candidates after the project
candidates of the same namespace, removing neither; since the first candidate
is the one chosen as display prefix, project prefixes take precedence. -/
theorem get_prefixes_project_first (project external local_cc : List (String × String))
    (ns : String) (hext : external ≠ []) :
    lookup_cands (get_prefixes project (some external) local_cc true) ns =
      cands_of project ns ++ cands_of external ns ∧
    lookup_cands (get_prefixes project none local_cc true) ns =
      cands_of project ns ++ cands_of local_cc ns ∧
    (cands_of project ns ≠ [] →
      (lookup_cands (get_prefixes project (some external) local_cc true) ns).headD "" =
        (cands_of project ns).headD "") := by
  have hext2 : external.isEmpty = false := by
    cases external with
    | nil => exact absurd rfl hext
    | cons a l => rfl
  have e1 : get_prefixes project (some external) local_cc true =
      format_prefixes external (format_prefixes project []) := by
    simp [get_prefixes, hext2]
  have e2 : get_prefixes project none local_cc true =
      (if local_cc.isEmpty then format_prefixes project []
       else format_prefixes local_cc (format_prefixes project [])) := by
    simp [get_prefixes]
  have h1 : lookup_cands (get_prefixes project (some external) local_cc true) ns =
      cands_of project ns ++ cands_of external ns := by
    rw [e1, lookup_format_prefixes, lookup_format_prefixes]
    simp [lookup_cands]
  refine ⟨h1, ?_, ?_⟩
  · rw [e2]
    by_cases hloc : local_cc.isEmpty
    · have hnil : local_cc = [] := by
        cases local_cc with | nil => rfl | cons a l => cases hloc
      subst hnil
      rw [if_pos hloc, lookup_format_prefixes]
      simp [lookup_cands, cands_of]
    · rw [if_neg hloc, lookup_format_prefixes, lookup_format_prefixes]
      simp [lookup_cands]
  · intro hproj
    rw [h1]
    cases h : cands_of project ns with
    | nil => exact absurd h hproj
    | cons a l => simp

/-- C7 (amended) witness at a concrete table. -/
theorem get_prefixes_project_first_witness :
    ([("exa", "http://n/")] : List (String × String)) ≠ [] ∧
    lookup_cands (get_prefixes [("ex", "http://n/")] (some [("exa", "http://n/")]) [] true)
        "http://n/" =
      cands_of [("ex", "http://n/")] "http://n/" ++ cands_of [("exa", "http://n/")] "http://n/" :=
  ⟨by decide,
   (get_prefixes_project_first [("ex", "http://n/")] [("exa", "http://n/")] [] "http://n/"
      (by decide)).1⟩

/-- C8: the constructor does not compare the two graph IRIs: a configuration
whose output shapes-graph IRI equals the input data-graph IRI (both valid) is
accepted, while the repository's own tests and the spec require a construction
error for identical input and output graphs. -/
theorem equal_graph_iris_accepted_by_init :
    ∃ cfg, shapes_plugin_init ("http://example.com/1") ("http://example.com/1") ("stop")
      false true ("http://www.w3.org/1999/02/22-rdf-syntax-ns#type") true = Except.ok cfg ∧
      cfg.data_graph_iri = cfg.shapes_graph_iri := by
  refine ⟨_, rfl, rfl⟩

theorem validate_ignore_list_error {l : List String} (p : String) (hp : p ∈ l)
    (hv : is_valid_url p = false) : ∃ e, validate_ignore_list l = Except.error e := by
  induction l with
  | nil => cases hp
  | cons a rest ih =>
    by_cases ha : is_valid_url a
    · simp only [validate_ignore_list, ha, if_true]
      have hpr : p ∈ rest := by
        cases List.mem_cons.mp hp with
        | inl h => exact absurd (h ▸ ha) (by simp [hv])
        | inr h => exact h
      obtain ⟨e, he⟩ := ih hpr
      exact ⟨e, by simp [he]⟩
    · exact ⟨"Ignored property IRI invalid: " ++ a, by simp [validate_ignore_list, ha]⟩

/-- C10: any ignore-properties string one of whose newline-separated lines is
empty (in particular the empty string itself) makes the constructor raise a
validation error, because every line must pass URL validation and the empty
line fails it; an empty ignore-list therefore cannot be configured by passing
the empty string. -/
theorem empty_ignore_line_rejected (data_graph_iri shapes_graph_iri existing_graph : String)
    (import_shapes prefix_cc plugin_provenance : Bool) (ignore_properties : String)
    (h : "" ∈ py_split ignore_properties ("\n")) :
    ∃ e, shapes_plugin_init data_graph_iri shapes_graph_iri existing_graph import_shapes
      prefix_cc ignore_properties plugin_provenance = Except.error e := by
  by_cases h1 : is_valid_url data_graph_iri
  · by_cases h2 : is_valid_url shapes_graph_iri
    · obtain ⟨e, he⟩ := validate_ignore_list_error "" h (by decide)
      exact ⟨e, by simp [shapes_plugin_init, h1, h2, he]⟩
    · exact ⟨"Shapes graph IRI parameter is invalid.", by simp [shapes_plugin_init, h1, h2]⟩
  · exact ⟨"Data graph IRI parameter is invalid.", by simp [shapes_plugin_init, h1]⟩

/-- C10 witness: the empty ignore-properties string is rejected. -/
theorem empty_ignore_line_rejected_witness :
    ("" ∈ py_split ("") ("\n")) ∧
    ∃ e, shapes_plugin_init ("http://example.com/1") ("http://example.com/2") ("stop")
      false true ("") true = Except.error e :=
  ⟨by decide,
   empty_ignore_line_rejected ("http://example.com/1") ("http://example.com/2") ("stop")
     false true true ("") (by decide)⟩

/-- C3: under the stop policy, when the target shapes graph already exists in
the graph list, execute raises the already-exists error naming the graph and
its store-write trace is empty: no graph replacement, insert or label change
happens in that run. -/
theorem stop_policy_writes_nothing (cfg : PluginConfig) (env : Env)
    (hpol : cfg.existing_graph = "stop")
    (hex : cfg.shapes_graph_iri ∈ env.graphs_list.map (fun m => m.iri)) :
    execute cfg env = ([], some ("Graph <" ++ cfg.shapes_graph_iri ++ "> already exists.")) := by
  simp only [execute]
  rw [if_pos ⟨hpol, hex⟩]

/-- C3 witness at a concrete configuration and environment. -/
theorem stop_policy_writes_nothing_witness :
    execute
      { data_graph_iri := "http://d.example/", shapes_graph_iri := "http://s.example/",
        ignore_properties := [], existing_graph := "stop", import_shapes := false,
        prefix_cc := false, replace := false, plugin_provenance := false, label := LABEL }
      { graphs_list := [⟨"http://s.example/", none⟩], graphs_list_add := [],
        data_graph := [], name_of := fun s => s, now := "2024-01-01T00:00:00.000Z",
        prov := none } =
      ([], some ("Graph <" ++ "http://s.example/" ++ "> already exists.")) :=
  stop_policy_writes_nothing _ _ rfl (by decide)

theorem mk_data (s : String) : (⟨s.data⟩ : String) = s := by
  cases s; rfl

theorem isPrefixOf_exists {l s : List Char} (h : l.isPrefixOf s = true) :
    ∃ t, s = l ++ t := by
  induction l generalizing s with
  | nil => exact ⟨s, rfl⟩
  | cons a as ih =>
    cases s with
    | nil => cases h
    | cons b bs =>
      simp only [List.isPrefixOf, Bool.and_eq_true, beq_iff_eq] at h
      obtain ⟨t, ht⟩ := ih h.2
      exact ⟨t, by rw [h.1, ht]; rfl⟩

theorem takeWhile_append_stop {p : Char → Bool} {xs : List Char} (y : Char) (ys : List Char)
    (h : ∀ x ∈ xs, p x = true) (hy : p y = false) : (xs ++ y :: ys).takeWhile p = xs := by
  induction xs with
  | nil => simp [List.takeWhile_cons, hy]
  | cons a as ih =>
    have ha : p a = true := h a (by simp)
    simp only [List.cons_append, List.takeWhile_cons, ha, if_true]
    simp only [List.cons.injEq, true_and]
    exact ih (fun x hx => h x (by simp [hx]))

/-- C6: for an IRI whose namespace is in the prefix table and a title the
external service derived from the IRI: a title starting with one of the
namespace's candidate prefixes is stripped of that matched prefix and the
result is the remaining body followed by the matched prefix in parentheses;
when no candidate matches, the title is split at its first underscore keeping
the part after it (with the first candidate appended parenthetically), and an
error carrying the offending title is raised when the title has no
underscore. Candidate prefixes are of the shape of format_prefixes output, a
colon-free name followed by a colon. -/
theorem get_name_resolution (prefixes : List (String × List String)) (iri ns loc : String)
    (cands : List String) (resp : TitleResponse)
    (hsplit : split_uri iri = Except.ok (ns, loc))
    (hfind : prefixes.find? (fun kv => kv.1 = ns) = some (ns, cands))
    (hcands : ∀ c ∈ cands, ∃ nm, c = nm ++ ":" ∧ ∀ ch ∈ nm.data, ch ≠ ':')
    (hfrom : resp.fromIri = true) :
    (∀ c ∈ cands, py_startswith resp.title c = true →
      get_name prefixes iri resp =
        Except.ok ((⟨resp.title.data.drop c.data.length⟩ : String) ++ " (" ++ c ++ ")")) ∧
    ((∀ c ∈ cands, py_startswith resp.title c = false) →
      (∀ tail, split1_after '_' resp.title = some tail →
        get_name prefixes iri resp = Except.ok (tail ++ " (" ++ cands.headD "" ++ ")")) ∧
      (split1_after '_' resp.title = none →
        get_name prefixes iri resp =
          Except.error (resp.title ++ " " ++ String.intercalate ", " cands))) := by
  constructor
  · intro c hc hstart
    have hany : cands.any (fun c => py_startswith resp.title c) = true :=
      List.any_eq_true.mpr ⟨c, hc, hstart⟩
    simp only [get_name, hsplit, hfind, hfrom, if_true, hany]
    by_cases hlen : 1 < cands.length
    · rw [if_pos hlen]
      obtain ⟨nm, hcnm, hnocolon⟩ := hcands c hc
      have hpfx : split1_before ':' resp.title ++ ":" = c := by
        obtain ⟨t, ht⟩ := isPrefixOf_exists hstart
        have hcdata : c.data = nm.data ++ [':'] := by
          rw [hcnm, String.data_append]
        have htitle : resp.title.data = nm.data ++ ':' :: t := by
          rw [ht, hcdata]; simp
        have htake : resp.title.data.takeWhile (fun ch => ch ≠ ':') = nm.data := by
          rw [htitle]
          exact takeWhile_append_stop ':' t
            (fun x hx => by simpa using hnocolon x hx) (by simp)
        have : split1_before ':' resp.title = nm := by
          rw [split1_before, htake, mk_data]
        rw [this, hcnm]
      rw [hpfx]
    · rw [if_neg hlen]
      have hc0 : cands.headD "" = c := by
        cases cands with
        | nil => cases hc
        | cons c0 rest =>
          cases rest with
          | nil => simpa using (List.mem_singleton.mp hc).symm
          | cons c1 r2 => simp at hlen
      rw [hc0]
  · intro hnostart
    have hany : cands.any (fun c => py_startswith resp.title c) = false := by
      rw [List.any_eq_false]
      intro c hc
      simp [hnostart c hc]
    constructor
    · intro tail htail
      simp only [get_name, hsplit, hfind, hfrom, if_true, hany, htail]
      rfl
    · intro hnone
      simp only [get_name, hsplit, hfind, hfrom, if_true, hany, hnone]
      rfl

/-- C6 witness: the spec's own example, namespace http://ex.org/ with prefix
ex:, title ex:Person, resolving to Person (ex:). -/
theorem get_name_resolution_witness :
    split_uri ("http://ex.org/Person") = Except.ok ("http://ex.org/", "Person") ∧
    ([("http://ex.org/", ["ex:"])].find? (fun kv => kv.1 = "http://ex.org/") =
      some ("http://ex.org/", ["ex:"])) ∧
    get_name [("http://ex.org/", ["ex:"])] ("http://ex.org/Person")
        ⟨"ex:Person", true⟩ = Except.ok ("Person (ex:)") := by
  refine ⟨by rfl, by rfl, ?_⟩
  have h := (get_name_resolution [("http://ex.org/", ["ex:"])] ("http://ex.org/Person")
    ("http://ex.org/") ("Person") ["ex:"] ⟨"ex:Person", true⟩ (by rfl) (by rfl)
    (by
      intro c hc
      have hce : c = "ex:" := by simpa using hc
      exact ⟨"ex", by rw [hce]; decide, by decide⟩)
    rfl).1 ("ex:") (by decide) (by decide)
  rw [h]
  rfl

theorem process_prop_mono (sg : String) (no : String → String) (nu : String)
    (st : ShapesState) (p : PropObs) {t : Triple} (ht : t ∈ st.shapes_graph) :
    t ∈ (process_prop sg no nu st p).shapes_graph := by
  simp only [process_prop]
  by_cases h : prop_shape_id p.property p.inverse ∈ st.prop_uuids
  · rw [if_pos h]
    exact mem_gadd.mpr (Or.inl ht)
  · rw [if_neg h]
    exact mem_gadd.mpr (Or.inl (foldl_gadd_subset ht))

theorem process_prop_propinv (sg : String) (no : String → String) (nu : String)
    (st : ShapesState) (p : PropObs) (hinv : prop_inv sg st) :
    prop_inv sg (process_prop sg no nu st p) := by
  intro u hu
  simp only [process_prop] at hu ⊢
  by_cases h : prop_shape_id p.property p.inverse ∈ st.prop_uuids
  · rw [if_pos h] at hu ⊢
    exact mem_gadd.mpr (Or.inl (hinv u hu))
  · rw [if_neg h] at hu ⊢
    rcases List.mem_append.mp hu with h1 | h2
    · exact mem_gadd.mpr (Or.inl (foldl_gadd_subset (hinv u h1)))
    · have hu2 : u = prop_shape_id p.property p.inverse := by simpa using h2
      subst hu2
      refine mem_gadd.mpr (Or.inl (foldl_gadd_mem.mpr (Or.inr ?_)))
      simp [prop_shape_triples, prop_shape_uri]

theorem process_prop_type_mem (sg : String) (no : String → String) (nu : String)
    (st : ShapesState) (p : PropObs) (hinv : prop_inv sg st) :
    type_triple sg p.property p.inverse ∈ (process_prop sg no nu st p).shapes_graph := by
  simp only [process_prop]
  by_cases h : prop_shape_id p.property p.inverse ∈ st.prop_uuids
  · rw [if_pos h]
    exact mem_gadd.mpr (Or.inl (hinv _ h))
  · rw [if_neg h]
    refine mem_gadd.mpr (Or.inl (foldl_gadd_mem.mpr (Or.inr ?_)))
    simp [prop_shape_triples, type_triple]

theorem process_prop_assoc_mem (sg : String) (no : String → String) (nu : String)
    (st : ShapesState) (p : PropObs) :
    (⟨.iri nu, .iri sh_property, .iri (prop_shape_uri sg p.property p.inverse)⟩ : Triple) ∈
      (process_prop sg no nu st p).shapes_graph := by
  simp only [process_prop]
  exact mem_gadd.mpr (Or.inr rfl)

theorem props_fold_propinv (sg : String) (no : String → String) (nu : String)
    (props : List PropObs) (st : ShapesState) (hinv : prop_inv sg st) :
    prop_inv sg (props.foldl (process_prop sg no nu) st) := by
  induction props generalizing st with
  | nil => exact hinv
  | cons p ps ih => exact ih _ (process_prop_propinv _ _ _ _ _ hinv)

theorem props_fold_mono (sg : String) (no : String → String) (nu : String)
    (props : List PropObs) (st : ShapesState) {t : Triple} (ht : t ∈ st.shapes_graph) :
    t ∈ (props.foldl (process_prop sg no nu) st).shapes_graph := by
  induction props generalizing st with
  | nil => exact ht
  | cons p ps ih => exact ih _ (process_prop_mono _ _ _ _ _ ht)

theorem props_fold_establishes (sg : String) (no : String → String) (nu : String)
    (props : List PropObs) (st : ShapesState) (p : PropObs)
    (hp : p ∈ props) (hinv : prop_inv sg st) :
    type_triple sg p.property p.inverse ∈
      (props.foldl (process_prop sg no nu) st).shapes_graph ∧
    (⟨.iri nu, .iri sh_property, .iri (prop_shape_uri sg p.property p.inverse)⟩ : Triple) ∈
      (props.foldl (process_prop sg no nu) st).shapes_graph := by
  induction props generalizing st with
  | nil => cases hp
  | cons q qs ih =>
    simp only [List.foldl_cons]
    rcases List.mem_cons.mp hp with h | h
    · subst h
      constructor
      · exact props_fold_mono _ _ _ qs _ (process_prop_type_mem _ _ _ _ _ hinv)
      · exact props_fold_mono _ _ _ qs _ (process_prop_assoc_mem _ _ _ _ _)
    · exact ih _ h (process_prop_propinv _ _ _ _ _ hinv)

theorem process_class_propinv (sg : String) (no : String → String) (st : ShapesState)
    (entry : String × List PropObs) (hinv : prop_inv sg st) :
    prop_inv sg (process_class sg no st entry) := by
  simp only [process_class]
  apply props_fold_propinv
  by_cases h : class_shape_id entry.1 ∈ st.class_uuids
  · rw [if_pos h]; exact hinv
  · rw [if_neg h]
    intro u hu
    exact foldl_gadd_subset (hinv u hu)

theorem process_class_mono (sg : String) (no : String → String) (st : ShapesState)
    (entry : String × List PropObs) {t : Triple} (ht : t ∈ st.shapes_graph) :
    t ∈ (process_class sg no st entry).shapes_graph := by
  simp only [process_class]
  apply props_fold_mono
  by_cases h : class_shape_id entry.1 ∈ st.class_uuids
  · rw [if_pos h]; exact ht
  · rw [if_neg h]; exact foldl_gadd_subset ht

theorem process_class_establishes (sg : String) (no : String → String) (st : ShapesState)
    (cls : String) (props : List PropObs) (p : PropObs)
    (hp : p ∈ props) (hinv : prop_inv sg st) :
    type_triple sg p.property p.inverse ∈ (process_class sg no st (cls, props)).shapes_graph ∧
    assoc_triple sg cls p.property p.inverse ∈
      (process_class sg no st (cls, props)).shapes_graph := by
  simp only [process_class]
  apply props_fold_establishes _ _ _ _ _ _ hp
  by_cases h : class_shape_id cls ∈ st.class_uuids
  · rw [if_pos h]; exact hinv
  · rw [if_neg h]
    intro u hu
    exact foldl_gadd_subset (hinv u hu)

theorem create_shapes_propinv (sg : String) (no : String → String)
    (dict : List (String × List PropObs)) (st : ShapesState) (hinv : prop_inv sg st) :
    prop_inv sg (create_shapes sg no dict st) := by
  induction dict generalizing st with
  | nil => exact hinv
  | cons e es ih => exact ih _ (process_class_propinv _ _ _ _ hinv)

theorem create_shapes_mono (sg : String) (no : String → String)
    (dict : List (String × List PropObs)) (st : ShapesState) {t : Triple}
    (ht : t ∈ st.shapes_graph) : t ∈ (create_shapes sg no dict st).shapes_graph := by
  induction dict generalizing st with
  | nil => exact ht
  | cons e es ih => exact ih _ (process_class_mono _ _ _ _ ht)

theorem create_shapes_establishes (sg : String) (no : String → String)
    (dict : List (String × List PropObs)) (st : ShapesState)
    (cls : String) (props : List PropObs) (p : PropObs)
    (hd : (cls, props) ∈ dict) (hp : p ∈ props) (hinv : prop_inv sg st) :
    type_triple sg p.property p.inverse ∈ (create_shapes sg no dict st).shapes_graph ∧
    assoc_triple sg cls p.property p.inverse ∈ (create_shapes sg no dict st).shapes_graph := by
  induction dict generalizing st with
  | nil => cases hd
  | cons e es ih =>
    have hcons : create_shapes sg no (e :: es) st =
        create_shapes sg no es (process_class sg no st e) := rfl
    rw [hcons]
    rcases List.mem_cons.mp hd with h | h
    · subst h
      have h2 := process_class_establishes sg no st cls props p hp hinv
      exact ⟨create_shapes_mono _ _ es _ h2.1, create_shapes_mono _ _ es _ h2.2⟩
    · exact ih _ h (process_class_propinv _ _ _ _ hinv)

theorem process_prop_nodup (sg : String) (no : String → String) (nu : String)
    (st : ShapesState) (p : PropObs) (h : st.shapes_graph.Nodup) :
    (process_prop sg no nu st p).shapes_graph.Nodup := by
  simp only [process_prop]
  by_cases hm : prop_shape_id p.property p.inverse ∈ st.prop_uuids
  · rw [if_pos hm]; exact gadd_nodup h _
  · rw [if_neg hm]; exact gadd_nodup (foldl_gadd_nodup h) _

theorem process_class_nodup (sg : String) (no : String → String) (st : ShapesState)
    (entry : String × List PropObs) (h : st.shapes_graph.Nodup) :
    (process_class sg no st entry).shapes_graph.Nodup := by
  simp only [process_class]
  have hgen : ∀ (props : List PropObs) (st1 : ShapesState), st1.shapes_graph.Nodup →
      (props.foldl (process_prop sg no (node_shape_uri sg entry.1)) st1).shapes_graph.Nodup := by
    intro props
    induction props with
    | nil => intro st1 h1; exact h1
    | cons q qs ih => intro st1 h1; exact ih _ (process_prop_nodup _ _ _ _ _ h1)
  apply hgen
  by_cases hm : class_shape_id entry.1 ∈ st.class_uuids
  · rw [if_pos hm]; exact h
  · rw [if_neg hm]; exact foldl_gadd_nodup h

theorem create_shapes_nodup (sg : String) (no : String → String)
    (dict : List (String × List PropObs)) (st : ShapesState) (h : st.shapes_graph.Nodup) :
    (create_shapes sg no dict st).shapes_graph.Nodup := by
  induction dict generalizing st with
  | nil => exact h
  | cons e es ih => exact ih _ (process_class_nodup _ _ _ _ h)

theorem init_shapes_graph_nodup (sg dg : String) : (init_shapes_graph sg dg).Nodup :=
  gadd_nodup (gadd_nodup List.nodup_nil _) _

/-- C1: when two distinct classes of the extracted schema both exhibit the same
property in the same direction, the graph produced by create_shapes contains
the PropertyShape type triple of that (property, direction) exactly once, one
sh:property association triple per class referencing that single shape
(exactly once each), and the two association triples are distinct — one shared
PropertyShape, not one copy per class. -/
theorem property_shapes_shared (sg dg : String) (name_of : String → String)
    (class_dict : List (String × List PropObs)) (c1 c2 p : String) (d : Bool)
    (props1 props2 : List PropObs) (o1 o2 : PropObs)
    (h1 : (c1, props1) ∈ class_dict) (h2 : (c2, props2) ∈ class_dict) (hne : c1 ≠ c2)
    (ho1 : o1 ∈ props1) (ho2 : o2 ∈ props2)
    (hp1 : o1.property = p) (hd1 : o1.inverse = d)
    (hp2 : o2.property = p) (hd2 : o2.inverse = d) :
    ((create_shapes sg name_of class_dict (init_state sg dg)).shapes_graph.count
        (type_triple sg p d) = 1) ∧
    ((create_shapes sg name_of class_dict (init_state sg dg)).shapes_graph.count
        (assoc_triple sg c1 p d) = 1) ∧
    ((create_shapes sg name_of class_dict (init_state sg dg)).shapes_graph.count
        (assoc_triple sg c2 p d) = 1) ∧
    assoc_triple sg c1 p d ≠ assoc_triple sg c2 p d := by
  have hinv0 : prop_inv sg (init_state sg dg) := by intro u hu; cases hu
  have hnodup : (create_shapes sg name_of class_dict (init_state sg dg)).shapes_graph.Nodup :=
    create_shapes_nodup _ _ _ _ (init_shapes_graph_nodup sg dg)
  have e1 := create_shapes_establishes sg name_of class_dict _ c1 props1 o1 h1 ho1 hinv0
  have e2 := create_shapes_establishes sg name_of class_dict _ c2 props2 o2 h2 ho2 hinv0
  rw [hp1, hd1] at e1
  rw [hp2, hd2] at e2
  have hdiff : assoc_triple sg c1 p d ≠ assoc_triple sg c2 p d := by
    intro h
    apply hne
    have hs := congrArg Triple.subj h
    simp only [assoc_triple] at hs
    injection hs with hv
    exact node_shape_uri_inj hv
  exact ⟨List.count_eq_one_of_mem hnodup e1.1, List.count_eq_one_of_mem hnodup e1.2,
         List.count_eq_one_of_mem hnodup e2.2, hdiff⟩

/-- C1 witness: two concrete classes sharing one forward property. -/
theorem property_shapes_shared_witness :
    (("http://C1", [(⟨"http://p", false, false⟩ : PropObs)]) ∈
      [("http://C1", [(⟨"http://p", false, false⟩ : PropObs)]),
       ("http://C2", [(⟨"http://p", true, false⟩ : PropObs)])]) ∧
    ("http://C1" : String) ≠ "http://C2" ∧
    ((create_shapes ("http://s.example/") (fun s => s)
        [("http://C1", [(⟨"http://p", false, false⟩ : PropObs)]),
         ("http://C2", [(⟨"http://p", true, false⟩ : PropObs)])]
        (init_state ("http://s.example/") ("http://d.example/"))).shapes_graph.count
          (type_triple ("http://s.example/") ("http://p") false) = 1) ∧
    ((create_shapes ("http://s.example/") (fun s => s)
        [("http://C1", [(⟨"http://p", false, false⟩ : PropObs)]),
         ("http://C2", [(⟨"http://p", true, false⟩ : PropObs)])]
        (init_state ("http://s.example/") ("http://d.example/"))).shapes_graph.count
          (assoc_triple ("http://s.example/") ("http://C1") ("http://p") false) = 1) ∧
    ((create_shapes ("http://s.example/") (fun s => s)
        [("http://C1", [(⟨"http://p", false, false⟩ : PropObs)]),
         ("http://C2", [(⟨"http://p", true, false⟩ : PropObs)])]
        (init_state ("http://s.example/") ("http://d.example/"))).shapes_graph.count
          (assoc_triple ("http://s.example/") ("http://C2") ("http://p") false) = 1) := by
  have h := property_shapes_shared ("http://s.example/") ("http://d.example/") (fun s => s)
    [("http://C1", [(⟨"http://p", false, false⟩ : PropObs)]),
     ("http://C2", [(⟨"http://p", true, false⟩ : PropObs)])]
    ("http://C1") ("http://C2") ("http://p") false
    [(⟨"http://p", false, false⟩ : PropObs)] [(⟨"http://p", true, false⟩ : PropObs)]
    ⟨"http://p", false, false⟩ ⟨"http://p", true, false⟩
    (by decide) (by decide) (by decide) (by decide) (by decide) rfl rfl rfl rfl
  exact ⟨by decide, by decide, h.1, h.2.1, h.2.2.1⟩

theorem iri_inj {a b : String} (h : RTerm.iri a = RTerm.iri b) : a = b := by
  injection h

theorem eval_class_query_not_ignored (dg : List Triple) (ignore : List String)
    (hwf : wf_graph dg) :
    ∀ b ∈ eval_class_query dg ignore, b.property ∉ ignore := by
  intro b hb hmem
  simp only [eval_class_query, List.mem_dedup, List.mem_append] at hb
  rcases hb with h | h
  · rw [List.mem_flatMap] at h
    obtain ⟨t1, ht1, h2⟩ := h
    by_cases hpred : t1.pred = RTerm.iri rdf_type
    · rw [if_pos hpred] at h2
      rw [List.mem_filterMap] at h2
      obtain ⟨t2, ht2, h3⟩ := h2
      by_cases hcond : t2.subj = t1.subj ∧ t2.pred ∉ ignore.map RTerm.iri
      · rw [if_pos hcond] at h3
        obtain ⟨v, hv⟩ := hwf t2 ht2
        apply hcond.2
        have hbp : b.property = v := by
          have := congrArg QueryBinding.property (Option.some.inj h3)
          simpa [hv, term_value] using this.symm
        rw [hv]
        exact List.mem_map.mpr ⟨v, hbp ▸ hmem, rfl⟩
      · rw [if_neg hcond] at h3
        cases h3
    · rw [if_neg hpred] at h2
      cases h2
  · rw [List.mem_flatMap] at h
    obtain ⟨t1, ht1, h2⟩ := h
    by_cases hpred : t1.pred = RTerm.iri rdf_type
    · rw [if_pos hpred] at h2
      rw [List.mem_filterMap] at h2
      obtain ⟨t2, ht2, h3⟩ := h2
      by_cases hcond : t2.obj = t1.subj ∧ t2.pred ∉ ignore.map RTerm.iri
      · rw [if_pos hcond] at h3
        obtain ⟨v, hv⟩ := hwf t2 ht2
        apply hcond.2
        have hbp : b.property = v := by
          have := congrArg QueryBinding.property (Option.some.inj h3)
          simpa [hv, term_value] using this.symm
        rw [hv]
        exact List.mem_map.mpr ⟨v, hbp ▸ hmem, rfl⟩
      · rw [if_neg hcond] at h3
        cases h3
    · rw [if_neg hpred] at h2
      cases h2

theorem dict_insert_forall (d : List (String × List PropObs)) (key : String) (v : PropObs)
    (P : PropObs → Prop)
    (hd : ∀ kv ∈ d, ∀ o ∈ kv.2, P o) (hv : P v) :
    ∀ kv ∈ dict_insert d key v, ∀ o ∈ kv.2, P o := by
  induction d with
  | nil =>
    intro kv hkv o ho
    simp only [dict_insert, List.mem_singleton] at hkv
    subst hkv
    have : o = v := by simpa using ho
    exact this ▸ hv
  | cons e es ih =>
    intro kv hkv o ho
    by_cases h : e.1 = key
    · rw [dict_insert, if_pos h] at hkv
      rcases List.mem_cons.mp hkv with h1 | h1
      · subst h1
        rcases List.mem_append.mp ho with h2 | h2
        · exact hd e (by simp) o h2
        · have : o = v := by simpa using h2
          exact this ▸ hv
      · exact hd kv (by simp [h1]) o ho
    · rw [dict_insert, if_neg h] at hkv
      rcases List.mem_cons.mp hkv with h1 | h1
      · subst h1
        exact hd kv (by simp) o ho
      · exact ih (fun kv2 hkv2 o2 ho2 => hd kv2 (by simp [hkv2]) o2 ho2) kv h1 o ho

theorem build_class_dict_forall (bs : List QueryBinding) (d : List (String × List PropObs))
    (dict : List (String × List PropObs)) (P : String → Prop)
    (h : build_class_dict bs d = Except.ok dict)
    (hd : ∀ kv ∈ d, ∀ o ∈ kv.2, P o.property)
    (hb : ∀ b ∈ bs, P b.property) :
    ∀ kv ∈ dict, ∀ o ∈ kv.2, P o.property := by
  induction bs generalizing d with
  | nil =>
    simp only [build_class_dict, Except.ok.injEq] at h
    exact h ▸ hd
  | cons b rest ih =>
    simp only [build_class_dict] at h
    cases hdv : str2bool b.data with
    | error e => rw [hdv] at h; cases h
    | ok dv =>
      rw [hdv] at h
      cases hiv : str2bool b.inverse with
      | error e => rw [hiv] at h; cases h
      | ok iv =>
        rw [hiv] at h
        exact ih _ h
          (dict_insert_forall _ _ _ _ hd (hb b (by simp)))
          (fun b2 hb2 => hb b2 (by simp [hb2]))

theorem gadd_no_path {p : String} {g : List Triple} {t : Triple} (hg : no_path_to p g)
    (ht : t.pred = RTerm.iri sh_path → t.obj ≠ RTerm.iri p) : no_path_to p (gadd g t) := by
  intro u hu
  rcases mem_gadd.mp hu with h | h
  · exact hg u h
  · exact h ▸ ht

theorem foldl_gadd_no_path {p : String} {g : List Triple} {ts : List Triple}
    (hg : no_path_to p g)
    (hts : ∀ t ∈ ts, t.pred = RTerm.iri sh_path → t.obj ≠ RTerm.iri p) :
    no_path_to p (ts.foldl gadd g) := by
  intro t ht
  rcases foldl_gadd_mem.mp ht with h | h
  · exact hg t h
  · exact hts t h

theorem prop_shape_triples_no_path {p : String} (su : String) (prop : PropObs) (nm : String)
    (hprop : prop.property ≠ p) :
    ∀ t ∈ prop_shape_triples su prop nm, t.pred = RTerm.iri sh_path → t.obj ≠ RTerm.iri p := by
  intro t ht
  cases hb : prop.inverse
  · simp [prop_shape_triples, hb] at ht
    rcases ht with rfl | rfl | rfl | rfl | rfl | rfl
    all_goals (intro hpred)
    all_goals (first
      | (intro hobj; exact hprop (iri_inj hobj))
      | (exact absurd (iri_inj hpred) (by decide)))
  · simp [prop_shape_triples, hb] at ht
    rcases ht with rfl | rfl | rfl | rfl | rfl | rfl | rfl
    all_goals (intro hpred)
    all_goals (first
      | (intro hobj; exact hprop (iri_inj hobj))
      | (exact absurd (iri_inj hpred) (by decide)))

theorem node_shape_triples_no_path {p : String} (nu cls nm : String) :
    ∀ t ∈ node_shape_triples nu cls nm, t.pred = RTerm.iri sh_path → t.obj ≠ RTerm.iri p := by
  intro t ht
  simp only [node_shape_triples, List.mem_cons, List.mem_singleton, List.not_mem_nil,
    or_false] at ht
  rcases ht with rfl | rfl | rfl | rfl
  all_goals (intro hpred)
  all_goals (exact absurd (iri_inj hpred) (by decide))

theorem process_prop_no_path {p : String} (sg : String) (no : String → String) (nu : String)
    (st : ShapesState) (prop : PropObs) (hst : no_path_to p st.shapes_graph)
    (hprop : prop.property ≠ p) :
    no_path_to p (process_prop sg no nu st prop).shapes_graph := by
  simp only [process_prop]
  apply gadd_no_path
  · by_cases h : prop_shape_id prop.property prop.inverse ∈ st.prop_uuids
    · rw [if_pos h]; exact hst
    · rw [if_neg h]
      exact foldl_gadd_no_path hst (prop_shape_triples_no_path _ _ _ hprop)
  · intro hpred
    exact absurd (iri_inj hpred) (by decide)

theorem process_class_no_path {p : String} (sg : String) (no : String → String)
    (st : ShapesState) (entry : String × List PropObs) (hst : no_path_to p st.shapes_graph)
    (hentry : ∀ q ∈ entry.2, q.property ≠ p) :
    no_path_to p (process_class sg no st entry).shapes_graph := by
  simp only [process_class]
  have hgen : ∀ (props : List PropObs) (st1 : ShapesState),
      no_path_to p st1.shapes_graph → (∀ q ∈ props, q.property ≠ p) →
      no_path_to p ((props.foldl (process_prop sg no (node_shape_uri sg entry.1)) st1)).shapes_graph := by
    intro props
    induction props with
    | nil => intro st1 h1 _; exact h1
    | cons q qs ih =>
      intro st1 h1 h2
      exact ih _ (process_prop_no_path _ _ _ _ _ h1 (h2 q (by simp)))
        (fun r hr => h2 r (by simp [hr]))
  apply hgen _ _ _ hentry
  by_cases h : class_shape_id entry.1 ∈ st.class_uuids
  · rw [if_pos h]; exact hst
  · rw [if_neg h]
    exact foldl_gadd_no_path hst (node_shape_triples_no_path _ _ _)

theorem create_shapes_no_path {p : String} (sg : String) (no : String → String)
    (dict : List (String × List PropObs)) (st : ShapesState)
    (hst : no_path_to p st.shapes_graph)
    (hdict : ∀ kv ∈ dict, ∀ q ∈ kv.2, q.property ≠ p) :
    no_path_to p (create_shapes sg no dict st).shapes_graph := by
  induction dict generalizing st with
  | nil => exact hst
  | cons e es ih =>
    have hcons : create_shapes sg no (e :: es) st =
        create_shapes sg no es (process_class sg no st e) := rfl
    rw [hcons]
    exact ih _ (process_class_no_path _ _ _ _ hst (fun q hq => hdict e (by simp) q hq))
      (fun kv hkv q hq => hdict kv (by simp [hkv]) q hq)

theorem init_shapes_graph_no_path (sg dg p : String) :
    no_path_to p (init_shapes_graph sg dg) := by
  intro t ht
  rcases mem_gadd.mp ht with h | h
  · rcases mem_gadd.mp h with h2 | h2
    · cases h2
    · subst h2
      intro hpred
      exact absurd (iri_inj hpred) (by decide)
  · subst h
    intro hpred
    exact absurd (iri_inj hpred) (by decide)

/-- C5: a property IRI contained in the configured ignore list never occurs as
the object of a sh:path triple in the generated shapes graph, in either
direction: both branches of the extraction query filter it out, so no
observation carries it, and every sh:path triple create_shapes emits carries an
observation's property. The data graph is assumed well-formed (predicates are
IRIs). -/
theorem ignored_property_never_sh_path (data_graph : List Triple) (ignore : List String)
    (p sg dg : String) (name_of : String → String) (dict : List (String × List PropObs))
    (hwf : wf_graph data_graph) (hp : p ∈ ignore)
    (hdict : build_class_dict (eval_class_query data_graph ignore) [] = Except.ok dict) :
    no_path_to p (create_shapes sg name_of dict (init_state sg dg)).shapes_graph := by
  have hbind : ∀ b ∈ eval_class_query data_graph ignore, (fun q => q ≠ p) b.property := by
    intro b hb he
    exact eval_class_query_not_ignored data_graph ignore hwf b hb (he ▸ hp)
  have hdictall := build_class_dict_forall (eval_class_query data_graph ignore) [] dict
    (fun q => q ≠ p) hdict (by intro kv hkv; cases hkv) hbind
  exact create_shapes_no_path sg name_of dict _ (init_shapes_graph_no_path sg dg p) hdictall

/-- C5 witness: rdf:type data with one ignored property. -/
theorem ignored_property_never_sh_path_witness :
    wf_graph [(⟨.iri ("http://a"), .iri rdf_type, .iri ("http://C")⟩ : Triple),
              ⟨.iri ("http://a"), .iri ("http://p0"), .iri ("http://b")⟩] ∧
    ("http://p0" : String) ∈ ["http://p0"] ∧
    no_path_to ("http://p0")
      (create_shapes ("http://s.example/") (fun s => s)
        [("http://C",
          [(⟨"http://www.w3.org/1999/02/22-rdf-syntax-ns#type", false, false⟩ : PropObs)])]
        (init_state ("http://s.example/") ("http://d.example/"))).shapes_graph := by
  refine ⟨?_, by decide, ?_⟩
  · intro t ht
    rcases List.mem_cons.mp ht with h | h
    · exact ⟨rdf_type, by rw [h]⟩
    · have h2 : t = ⟨.iri ("http://a"), .iri ("http://p0"), .iri ("http://b")⟩ := by
        simpa using h
      exact ⟨"http://p0", by rw [h2]⟩
  · exact ignored_property_never_sh_path
      [⟨.iri ("http://a"), .iri rdf_type, .iri ("http://C")⟩,
       ⟨.iri ("http://a"), .iri ("http://p0"), .iri ("http://b")⟩]
      ["http://p0"] ("http://p0") ("http://s.example/") ("http://d.example/") (fun s => s)
      [("http://C",
        [(⟨"http://www.w3.org/1999/02/22-rdf-syntax-ns#type", false, false⟩ : PropObs)])]
      (by
        intro t ht
        rcases List.mem_cons.mp ht with h | h
        · exact ⟨rdf_type, by rw [h]⟩
        · have h2 : t = ⟨.iri ("http://a"), .iri ("http://p0"), .iri ("http://b")⟩ := by
            simpa using h
          exact ⟨"http://p0", by rw [h2]⟩)
      (by decide) (by rfl)

theorem apply_writes_append (T : String) (s : List Triple) (a b : List StoreWrite) :
    apply_writes T s (a ++ b) = apply_writes T (apply_writes T s a) b := by
  unfold apply_writes
  rw [List.foldl_append]

theorem mem_apply_insert_data {T : String} {store ts : List Triple} {u : Triple} :
    u ∈ apply_write T store (.insert_data T ts) ↔ u ∈ store ∨ u ∈ ts := by
  have he : apply_write T store (.insert_data T ts) = ts.foldl gadd store := by
    simp [apply_write]
  rw [he]
  exact foldl_gadd_mem

theorem mem_apply_delete_label {T l : String} {store : List Triple} {u : Triple} :
    u ∈ apply_write T store (.delete_label T l) ↔
      u ∈ store ∧ u ≠ ⟨.iri T, .iri rdfs_label, .lit l none none⟩ := by
  have he : apply_write T store (.delete_label T l) =
      store.filter
        (fun t => !(t == ⟨.iri T, .iri rdfs_label, .lit l none none⟩)) := by
    simp [apply_write]
  rw [he, List.mem_filter]
  simp

theorem mem_apply_delete_modified {T now : String} {store : List Triple} {u : Triple} :
    u ∈ apply_write T store (.delete_modified_lt T now) ↔
      u ∈ store ∧ ¬(u.subj = RTerm.iri T ∧ u.pred = RTerm.iri dcterms_modified ∧
        term_lt u.obj now = true) := by
  have he : apply_write T store (.delete_modified_lt T now) =
      store.filter (fun t =>
        !(t.subj == RTerm.iri T && t.pred == RTerm.iri dcterms_modified &&
          term_lt t.obj now)) := by
    simp [apply_write]
  rw [he, List.mem_filter]
  apply and_congr_right
  intro _
  simp [and_assoc]
  tauto

theorem apply_insert_modified_eq {T now : String} {store : List Triple} :
    apply_write T store (.insert_modified_if_absent T now) =
      if store.any (fun t => t.subj == RTerm.iri T && t.pred == RTerm.iri dcterms_modified)
      then store
      else gadd store ⟨.iri T, .iri dcterms_modified, .lit now none (some xsd_dateTime)⟩ := by
  simp [apply_write]

theorem add_to_label_cases (cfg : PluginConfig) (meta : GraphMeta) (g : List Triple) :
    add_to_label cfg meta g = ([], create_label cfg g ("")) ∨
    add_to_label cfg meta g = ([], g) ∨
    (∃ l, meta.label = some l ∧
      add_to_label cfg meta g =
        ([StoreWrite.delete_label cfg.shapes_graph_iri l],
         create_label cfg (backup_label cfg g l) (""))) ∨
    (∃ l, meta.label = some l ∧
      add_to_label cfg meta g =
        ([StoreWrite.delete_label cfg.shapes_graph_iri l],
         create_label cfg g (l ++ ", " ++ cfg.data_graph_iri))) := by
  cases hm : meta.label with
  | none =>
    refine Or.inl ?_
    simp [add_to_label, hm]
  | some l =>
    by_cases he : l = ""
    · refine Or.inl ?_
      simp [add_to_label, hm, he]
    · by_cases hin : cfg.data_graph_iri ∈ source_split l
      · refine Or.inr (Or.inl ?_)
        simp [add_to_label, hm, he, hin]
      · by_cases hmal : (!((source_split l).all is_valid_url) ||
            !(py_startswith l ("Shapes for: "))) = true
        · refine Or.inr (Or.inr (Or.inl ⟨l, rfl, ?_⟩))
          simp [add_to_label, hm, he, hin, hmal]
        · refine Or.inr (Or.inr (Or.inr ⟨l, rfl, ?_⟩))
          simp [add_to_label, hm, he, hin, hmal]

theorem create_label_mem (cfg : PluginConfig) (g : List Triple) (label : String) {t : Triple}
    (ht : t ∈ create_label cfg g label) : t ∈ g ∨ t.pred = RTerm.iri rdfs_label := by
  rcases mem_gadd.mp ht with h | h
  · exact Or.inl h
  · exact Or.inr (by rw [h])

theorem backup_label_mem (cfg : PluginConfig) (g : List Triple) (label : String) {t : Triple}
    (ht : t ∈ backup_label cfg g label) : t ∈ g ∨ t.pred = RTerm.iri rdfs_comment := by
  rcases mem_gadd.mp ht with h | h
  · exact Or.inl h
  · exact Or.inr (by rw [h])

theorem add_to_label_graph_mem (cfg : PluginConfig) (meta : GraphMeta) (g : List Triple)
    {t : Triple} (ht : t ∈ (add_to_label cfg meta g).2) :
    t ∈ g ∨ t.pred = RTerm.iri rdfs_label ∨ t.pred = RTerm.iri rdfs_comment := by
  rcases add_to_label_cases cfg meta g with h | h | ⟨l, _, h⟩ | ⟨l, _, h⟩ <;> rw [h] at ht
  · rcases create_label_mem cfg g _ ht with h2 | h2
    · exact Or.inl h2
    · exact Or.inr (Or.inl h2)
  · exact Or.inl ht
  · rcases create_label_mem cfg _ _ ht with h2 | h2
    · rcases backup_label_mem cfg g l h2 with h3 | h3
      · exact Or.inl h3
      · exact Or.inr (Or.inr h3)
    · exact Or.inr (Or.inl h2)
  · rcases create_label_mem cfg g _ ht with h2 | h2
    · exact Or.inl h2
    · exact Or.inr (Or.inl h2)

theorem add_to_label_graph_super (cfg : PluginConfig) (meta : GraphMeta) (g : List Triple)
    {t : Triple} (ht : t ∈ g) : t ∈ (add_to_label cfg meta g).2 := by
  rcases add_to_label_cases cfg meta g with h | h | ⟨l, _, h⟩ | ⟨l, _, h⟩ <;> rw [h]
  · exact mem_gadd.mpr (Or.inl ht)
  · exact ht
  · exact mem_gadd.mpr (Or.inl (mem_gadd.mpr (Or.inl ht)))
  · exact mem_gadd.mpr (Or.inl ht)

theorem add_to_label_ops_shape (cfg : PluginConfig) (meta : GraphMeta) (g : List Triple) :
    (add_to_label cfg meta g).1 = [] ∨
    ∃ l, (add_to_label cfg meta g).1 = [StoreWrite.delete_label cfg.shapes_graph_iri l] := by
  rcases add_to_label_cases cfg meta g with h | h | ⟨l, _, h⟩ | ⟨l, _, h⟩ <;> rw [h]
  · exact Or.inl rfl
  · exact Or.inl rfl
  · exact Or.inr ⟨l, rfl⟩
  · exact Or.inr ⟨l, rfl⟩

theorem label_ops_subset (T : String) (store : List Triple) (ops : List StoreWrite)
    (h : ops = [] ∨ ∃ l, ops = [StoreWrite.delete_label T l]) :
    apply_writes T store ops ⊆ store := by
  rcases h with h | ⟨l, h⟩
  · subst h; exact fun t ht => ht
  · subst h
    intro t ht
    exact (mem_apply_delete_label.mp ht).1

theorem label_ops_keep (T : String) (store : List Triple) (ops : List StoreWrite)
    (h : ops = [] ∨ ∃ l, ops = [StoreWrite.delete_label T l])
    {t : Triple} (ht : t ∈ store)
    (hkeep : t.subj ≠ RTerm.iri T ∨ t.pred ≠ RTerm.iri rdfs_label) :
    t ∈ apply_writes T store ops := by
  rcases h with h | ⟨l, h⟩
  · subst h; exact ht
  · subst h
    apply mem_apply_delete_label.mpr
    refine ⟨ht, fun he => ?_⟩
    rcases hkeep with hk | hk
    · exact hk (by rw [he])
    · exact hk (by rw [he])

/-- C4 (amended): an add-policy merge against an existing target graph only
inserts new triples and never deletes a previously present shape triple (every
prior triple whose subject is not the catalog IRI survives); it replaces a
prior dcterms:modified timestamp that is earlier than the current time with the
current time, so that the current timestamp is afterwards the catalog's only
modification timestamp (a prior timestamp not earlier than the current one
would instead be kept unchanged, see the counterexample); and it never writes
or alters dcterms:created. The in-memory shapes graph is assumed to carry no
modification or creation timestamps, as create_shapes builds it. -/
theorem add_policy_additive (cfg : PluginConfig) (now : String) (meta : GraphMeta)
    (st : ShapesState) (store : List Triple)
    (hmod : ∀ t ∈ store, t.subj = RTerm.iri cfg.shapes_graph_iri →
      t.pred = RTerm.iri dcterms_modified → term_lt t.obj now = true)
    (hst : ∀ t ∈ st.shapes_graph, t.pred ≠ RTerm.iri dcterms_modified ∧
      t.pred ≠ RTerm.iri dcterms_created) :
    (∀ t ∈ store, t.subj ≠ RTerm.iri cfg.shapes_graph_iri →
      t ∈ apply_add_to_graph cfg now meta st store) ∧
    ((⟨.iri cfg.shapes_graph_iri, .iri dcterms_modified,
        .lit now none (some xsd_dateTime)⟩ : Triple) ∈ apply_add_to_graph cfg now meta st store) ∧
    (∀ t ∈ apply_add_to_graph cfg now meta st store,
      t.subj = RTerm.iri cfg.shapes_graph_iri → t.pred = RTerm.iri dcterms_modified →
      t = ⟨.iri cfg.shapes_graph_iri, .iri dcterms_modified, .lit now none (some xsd_dateTime)⟩) ∧
    (∀ t : Triple, t.pred = RTerm.iri dcterms_created →
      (t ∈ apply_add_to_graph cfg now meta st store ↔ t ∈ store)) := by
  have hsplit : apply_add_to_graph cfg now meta st store =
      apply_write cfg.shapes_graph_iri
        (apply_write cfg.shapes_graph_iri
          (apply_write cfg.shapes_graph_iri
            (apply_writes cfg.shapes_graph_iri store (add_to_label cfg meta st.shapes_graph).1)
            (.insert_data cfg.shapes_graph_iri (add_to_label cfg meta st.shapes_graph).2))
          (.delete_modified_lt cfg.shapes_graph_iri now))
        (.insert_modified_if_absent cfg.shapes_graph_iri now) := by
    unfold apply_add_to_graph add_to_graph_writes
    rw [apply_writes_append]
    rfl
  set T := cfg.shapes_graph_iri with hT
  set ops := (add_to_label cfg meta st.shapes_graph).1 with hops
  set g2 := (add_to_label cfg meta st.shapes_graph).2 with hg2
  set s1 := apply_writes T store ops with hs1
  set s2 := apply_write T s1 (.insert_data T g2) with hs2
  set s3 := apply_write T s2 (.delete_modified_lt T now) with hs3
  have hopsh := add_to_label_ops_shape cfg meta st.shapes_graph
  have hg2mem : ∀ t ∈ g2, t ∈ st.shapes_graph ∨ t.pred = RTerm.iri rdfs_label ∨
      t.pred = RTerm.iri rdfs_comment := fun t ht => add_to_label_graph_mem cfg meta _ ht
  have hs1sub : s1 ⊆ store := label_ops_subset T store ops hopsh
  have hs3nomod : ∀ t ∈ s3, ¬(t.subj = RTerm.iri T ∧ t.pred = RTerm.iri dcterms_modified) := by
    intro t ht hc
    have h2 := mem_apply_delete_modified.mp ht
    apply h2.2
    refine ⟨hc.1, hc.2, ?_⟩
    rcases mem_apply_insert_data.mp h2.1 with h3 | h3
    · exact hmod t (hs1sub h3) hc.1 hc.2
    · rcases hg2mem t h3 with h4 | h4 | h4
      · exact absurd hc.2 (hst t h4).1
      · exact absurd (hc.2 ▸ h4) (fun he => absurd (iri_inj he) (by decide))
      · exact absurd (hc.2 ▸ h4) (fun he => absurd (iri_inj he) (by decide))
  have hany : s3.any (fun t => t.subj == RTerm.iri T && t.pred == RTerm.iri dcterms_modified)
      = false := by
    rw [List.any_eq_false]
    intro t ht hc
    rw [Bool.and_eq_true, beq_iff_eq, beq_iff_eq] at hc
    exact hs3nomod t ht hc
  have hs4 : apply_add_to_graph cfg now meta st store =
      gadd s3 ⟨.iri T, .iri dcterms_modified, .lit now none (some xsd_dateTime)⟩ := by
    rw [hsplit, apply_insert_modified_eq, if_neg (by simp [hany])]
  refine ⟨?_, ?_, ?_, ?_⟩
  · intro t ht hsubj
    rw [hs4]
    apply mem_gadd.mpr
    apply Or.inl
    apply mem_apply_delete_modified.mpr
    refine ⟨mem_apply_insert_data.mpr (Or.inl ?_), fun hc => hsubj hc.1⟩
    exact label_ops_keep T store ops hopsh ht (Or.inl hsubj)
  · rw [hs4]
    exact mem_gadd.mpr (Or.inr rfl)
  · intro t ht hsubj hpred
    rw [hs4] at ht
    rcases mem_gadd.mp ht with h | h
    · exact absurd ⟨hsubj, hpred⟩ (hs3nomod t h)
    · exact h
  · intro t hpred
    have hpred_ne_mod : t.pred ≠ RTerm.iri dcterms_modified := by
      rw [hpred]
      intro he
      exact absurd (iri_inj he) (by decide)
    have hpred_ne_label : t.pred ≠ RTerm.iri rdfs_label := by
      rw [hpred]
      intro he
      exact absurd (iri_inj he) (by decide)
    have hpred_ne_comment : t.pred ≠ RTerm.iri rdfs_comment := by
      rw [hpred]
      intro he
      exact absurd (iri_inj he) (by decide)
    constructor
    · intro ht
      rw [hs4] at ht
      rcases mem_gadd.mp ht with h | h
      · have h2 := mem_apply_delete_modified.mp h
        rcases mem_apply_insert_data.mp h2.1 with h3 | h3
        · exact hs1sub h3
        · rcases hg2mem t h3 with h4 | h4 | h4
          · exact absurd hpred (hst t h4).2
          · exact absurd h4 hpred_ne_label
          · exact absurd h4 hpred_ne_comment
      · rw [h] at hpred
        exact absurd (iri_inj hpred) (by decide)
    · intro ht
      rw [hs4]
      apply mem_gadd.mpr
      apply Or.inl
      apply mem_apply_delete_modified.mpr
      refine ⟨mem_apply_insert_data.mpr (Or.inl ?_), fun hc => hpred_ne_mod hc.2.1⟩
      exact label_ops_keep T store ops hopsh ht (Or.inr hpred_ne_label)

/-- C4 counterexample: with a prior dcterms:modified timestamp that is not
earlier than the current time (here a future-dated one), the add merge keeps
the old timestamp and does not write the current one — the FILTER of the
DELETE restricts the replacement to strictly earlier values, so the claim's
unconditional replacement fails. -/
theorem add_policy_modified_counterexample :
    ((⟨.iri ("http://s.example/"), .iri dcterms_modified,
        .lit ("9999-01-01T00:00:00.000Z") none (some xsd_dateTime)⟩ : Triple) ∈
      apply_add_to_graph
        { data_graph_iri := "http://d.example/", shapes_graph_iri := "http://s.example/",
          ignore_properties := [], existing_graph := "add", import_shapes := false,
          prefix_cc := false, replace := false, plugin_provenance := false, label := LABEL }
        ("2024-01-01T00:00:00.000Z")
        ⟨"http://s.example/", some ("Shapes for: http://other.example/")⟩
        (init_state ("http://s.example/") ("http://d.example/"))
        [⟨.iri ("http://s.example/"), .iri dcterms_modified,
          .lit ("9999-01-01T00:00:00.000Z") none (some xsd_dateTime)⟩]) ∧
    ((⟨.iri ("http://s.example/"), .iri dcterms_modified,
        .lit ("2024-01-01T00:00:00.000Z") none (some xsd_dateTime)⟩ : Triple) ∉
      apply_add_to_graph
        { data_graph_iri := "http://d.example/", shapes_graph_iri := "http://s.example/",
          ignore_properties := [], existing_graph := "add", import_shapes := false,
          prefix_cc := false, replace := false, plugin_provenance := false, label := LABEL }
        ("2024-01-01T00:00:00.000Z")
        ⟨"http://s.example/", some ("Shapes for: http://other.example/")⟩
        (init_state ("http://s.example/") ("http://d.example/"))
        [⟨.iri ("http://s.example/"), .iri dcterms_modified,
          .lit ("9999-01-01T00:00:00.000Z") none (some xsd_dateTime)⟩]) := by
  decide

/-- C4 witness: a store whose prior timestamp is earlier than the current time,
where the merge keeps a foreign shape triple and makes the current time the
only modification timestamp. -/
theorem add_policy_additive_witness :
    (∀ t ∈ [(⟨.iri ("http://shape.example/1"), .iri rdf_type, .iri sh_NodeShape⟩ : Triple),
            ⟨.iri ("http://s.example/"), .iri dcterms_modified,
              .lit ("2020-01-01T00:00:00.000Z") none (some xsd_dateTime)⟩],
      t.subj = RTerm.iri ("http://s.example/") → t.pred = RTerm.iri dcterms_modified →
        term_lt t.obj ("2024-01-01T00:00:00.000Z") = true) ∧
    ((⟨.iri ("http://shape.example/1"), .iri rdf_type, .iri sh_NodeShape⟩ : Triple) ∈
      apply_add_to_graph
        { data_graph_iri := "http://d.example/", shapes_graph_iri := "http://s.example/",
          ignore_properties := [], existing_graph := "add", import_shapes := false,
          prefix_cc := false, replace := false, plugin_provenance := false, label := LABEL }
        ("2024-01-01T00:00:00.000Z")
        ⟨"http://s.example/", some ("Shapes for: http://other.example/")⟩
        (init_state ("http://s.example/") ("http://d.example/"))
        [⟨.iri ("http://shape.example/1"), .iri rdf_type, .iri sh_NodeShape⟩,
         ⟨.iri ("http://s.example/"), .iri dcterms_modified,
           .lit ("2020-01-01T00:00:00.000Z") none (some xsd_dateTime)⟩]) ∧
    ((⟨.iri ("http://s.example/"), .iri dcterms_modified,
        .lit ("2024-01-01T00:00:00.000Z") none (some xsd_dateTime)⟩ : Triple) ∈
      apply_add_to_graph
        { data_graph_iri := "http://d.example/", shapes_graph_iri := "http://s.example/",
          ignore_properties := [], existing_graph := "add", import_shapes := false,
          prefix_cc := false, replace := false, plugin_provenance := false, label := LABEL }
        ("2024-01-01T00:00:00.000Z")
        ⟨"http://s.example/", some ("Shapes for: http://other.example/")⟩
        (init_state ("http://s.example/") ("http://d.example/"))
        [⟨.iri ("http://shape.example/1"), .iri rdf_type, .iri sh_NodeShape⟩,
         ⟨.iri ("http://s.example/"), .iri dcterms_modified,
           .lit ("2020-01-01T00:00:00.000Z") none (some xsd_dateTime)⟩]) := by
  have h := add_policy_additive
    { data_graph_iri := "http://d.example/", shapes_graph_iri := "http://s.example/",
      ignore_properties := [], existing_graph := "add", import_shapes := false,
      prefix_cc := false, replace := false, plugin_provenance := false, label := LABEL }
    ("2024-01-01T00:00:00.000Z")
    ⟨"http://s.example/", some ("Shapes for: http://other.example/")⟩
    (init_state ("http://s.example/") ("http://d.example/"))
    [⟨.iri ("http://shape.example/1"), .iri rdf_type, .iri sh_NodeShape⟩,
     ⟨.iri ("http://s.example/"), .iri dcterms_modified,
       .lit ("2020-01-01T00:00:00.000Z") none (some xsd_dateTime)⟩]
    (by decide) (by decide)
  exact ⟨by decide, h.1 _ (by decide) (by decide), h.2.1⟩

theorem mem_insert_modified_mono {T now : String} {s : List Triple} {t : Triple}
    (ht : t ∈ s) : t ∈ apply_write T s (.insert_modified_if_absent T now) := by
  rw [apply_insert_modified_eq]
  by_cases h : s.any (fun t => t.subj == RTerm.iri T && t.pred == RTerm.iri dcterms_modified)
  · rw [if_pos h]; exact ht
  · rw [if_neg h]; exact mem_gadd.mpr (Or.inl ht)

/-- C9: during an add merge, when the existing catalog's label does not match
the default-label grammar (marker prefix and only valid IRIs after it) and
does not already list the current source graph, the old label value is
preserved in the resulting graph as an rdfs:comment annotation of the form
"Previous label: <old>" and a freshly generated default label is written in
its place, the old label triple being removed. The in-memory synthesis graph
is assumed not to carry the old label triple, and the old label differs from
the fresh default one (both follow from the malformedness in practice). -/
theorem malformed_label_backup (cfg : PluginConfig) (now : String) (meta : GraphMeta)
    (st : ShapesState) (store : List Triple) (label : String)
    (hl : meta.label = some label) (hne : label ≠ "")
    (hnot : cfg.data_graph_iri ∉ source_split label)
    (hmal : ((source_split label).all is_valid_url &&
      py_startswith label ("Shapes for: ")) = false)
    (hold : (⟨.iri cfg.shapes_graph_iri, .iri rdfs_label, .lit label none none⟩ : Triple) ∉
      st.shapes_graph)
    (hfresh : label ≠ "Shapes for: " ++ cfg.data_graph_iri) :
    ((⟨.iri cfg.shapes_graph_iri, .iri rdfs_comment,
        .lit ("Previous label: " ++ label) none none⟩ : Triple) ∈
      apply_add_to_graph cfg now meta st store) ∧
    ((⟨.iri cfg.shapes_graph_iri, .iri rdfs_label,
        .lit ("Shapes for: " ++ cfg.data_graph_iri) none none⟩ : Triple) ∈
      apply_add_to_graph cfg now meta st store) ∧
    ((⟨.iri cfg.shapes_graph_iri, .iri rdfs_label, .lit label none none⟩ : Triple) ∉
      apply_add_to_graph cfg now meta st store) := by
  have hmal2 : (!((source_split label).all is_valid_url) ||
      !(py_startswith label ("Shapes for: "))) = true := by
    cases h1 : (source_split label).all is_valid_url <;>
      cases h2 : py_startswith label ("Shapes for: ") <;>
      rw [h1, h2] at hmal <;> simp_all
  have hlr : add_to_label cfg meta st.shapes_graph =
      ([StoreWrite.delete_label cfg.shapes_graph_iri label],
       create_label cfg (backup_label cfg st.shapes_graph label) ("")) := by
    simp [add_to_label, hl, hne, hnot, hmal2]
  have hg2 : (add_to_label cfg meta st.shapes_graph).2 =
      gadd (gadd st.shapes_graph
          ⟨.iri cfg.shapes_graph_iri, .iri rdfs_comment,
            .lit ("Previous label: " ++ label) none none⟩)
        ⟨.iri cfg.shapes_graph_iri, .iri rdfs_label,
          .lit ("Shapes for: " ++ cfg.data_graph_iri) none none⟩ := by
    rw [hlr]
    simp [create_label, backup_label]
  have hsplit : apply_add_to_graph cfg now meta st store =
      apply_write cfg.shapes_graph_iri
        (apply_write cfg.shapes_graph_iri
          (apply_write cfg.shapes_graph_iri
            (apply_writes cfg.shapes_graph_iri store (add_to_label cfg meta st.shapes_graph).1)
            (.insert_data cfg.shapes_graph_iri (add_to_label cfg meta st.shapes_graph).2))
          (.delete_modified_lt cfg.shapes_graph_iri now))
        (.insert_modified_if_absent cfg.shapes_graph_iri now) := by
    unfold apply_add_to_graph add_to_graph_writes
    rw [apply_writes_append]
    rfl
  rw [hsplit]
  set T := cfg.shapes_graph_iri with hT
  have hcomment_g2 : (⟨.iri T, .iri rdfs_comment,
      .lit ("Previous label: " ++ label) none none⟩ : Triple) ∈
      (add_to_label cfg meta st.shapes_graph).2 := by
    rw [hg2]
    exact mem_gadd.mpr (Or.inl (mem_gadd.mpr (Or.inr rfl)))
  have hfresh_g2 : (⟨.iri T, .iri rdfs_label,
      .lit ("Shapes for: " ++ cfg.data_graph_iri) none none⟩ : Triple) ∈
      (add_to_label cfg meta st.shapes_graph).2 := by
    rw [hg2]
    exact mem_gadd.mpr (Or.inr rfl)
  refine ⟨?_, ?_, ?_⟩
  · apply mem_insert_modified_mono
    apply mem_apply_delete_modified.mpr
    refine ⟨mem_apply_insert_data.mpr (Or.inr hcomment_g2), fun hc => ?_⟩
    exact absurd (iri_inj hc.2.1) (by decide)
  · apply mem_insert_modified_mono
    apply mem_apply_delete_modified.mpr
    refine ⟨mem_apply_insert_data.mpr (Or.inr hfresh_g2), fun hc => ?_⟩
    exact absurd (iri_inj hc.2.1) (by decide)
  · intro hmem
    rw [apply_insert_modified_eq] at hmem
    have hmem3 : (⟨.iri T, .iri rdfs_label, .lit label none none⟩ : Triple) ∈
        apply_write T
          (apply_write T (apply_writes T store (add_to_label cfg meta st.shapes_graph).1)
            (.insert_data T (add_to_label cfg meta st.shapes_graph).2))
          (.delete_modified_lt T now) := by
      by_cases h : (apply_write T
          (apply_write T (apply_writes T store (add_to_label cfg meta st.shapes_graph).1)
            (.insert_data T (add_to_label cfg meta st.shapes_graph).2))
          (.delete_modified_lt T now)).any
            (fun t => t.subj == RTerm.iri T && t.pred == RTerm.iri dcterms_modified)
      · rw [if_pos h] at hmem; exact hmem
      · rw [if_neg h] at hmem
        rcases mem_gadd.mp hmem with h2 | h2
        · exact h2
        · exact absurd (iri_inj (congrArg Triple.pred h2)) (by decide)
    have hmem2 := (mem_apply_delete_modified.mp hmem3).1
    rcases mem_apply_insert_data.mp hmem2 with h2 | h2
    · rw [hlr] at h2
      have h3 := mem_apply_delete_label.mp h2
      exact h3.2 rfl
    · rw [hg2] at h2
      rcases mem_gadd.mp h2 with h3 | h3
      · rcases mem_gadd.mp h3 with h4 | h4
        · exact hold h4
        · exact absurd (iri_inj (congrArg Triple.pred h4)) (by decide)
      · have h4 := congrArg Triple.obj h3
        simp only at h4
        injection h4 with h5
        exact hfresh h5

/-- C9 witness: a malformed label is backed up as a comment and replaced by the
fresh default label. -/
theorem malformed_label_backup_witness :
    (("http://d.example/" : String) ∉ source_split ("my malformed label")) ∧
    (((source_split ("my malformed label")).all is_valid_url &&
      py_startswith ("my malformed label") ("Shapes for: ")) = false) ∧
    ((⟨.iri ("http://s.example/"), .iri rdfs_comment,
        .lit ("Previous label: my malformed label") none none⟩ : Triple) ∈
      apply_add_to_graph
        { data_graph_iri := "http://d.example/", shapes_graph_iri := "http://s.example/",
          ignore_properties := [], existing_graph := "add", import_shapes := false,
          prefix_cc := false, replace := false, plugin_provenance := false, label := LABEL }
        ("2024-01-01T00:00:00.000Z")
        ⟨"http://s.example/", some ("my malformed label")⟩
        (init_state ("http://s.example/") ("http://d.example/"))
        [⟨.iri ("http://s.example/"), .iri rdfs_label,
          .lit ("my malformed label") none none⟩]) ∧
    ((⟨.iri ("http://s.example/"), .iri rdfs_label,
        .lit ("Shapes for: http://d.example/") none none⟩ : Triple) ∈
      apply_add_to_graph
        { data_graph_iri := "http://d.example/", shapes_graph_iri := "http://s.example/",
          ignore_properties := [], existing_graph := "add", import_shapes := false,
          prefix_cc := false, replace := false, plugin_provenance := false, label := LABEL }
        ("2024-01-01T00:00:00.000Z")
        ⟨"http://s.example/", some ("my malformed label")⟩
        (init_state ("http://s.example/") ("http://d.example/"))
        [⟨.iri ("http://s.example/"), .iri rdfs_label,
          .lit ("my malformed label") none none⟩]) ∧
    ((⟨.iri ("http://s.example/"), .iri rdfs_label,
        .lit ("my malformed label") none none⟩ : Triple) ∉
      apply_add_to_graph
        { data_graph_iri := "http://d.example/", shapes_graph_iri := "http://s.example/",
          ignore_properties := [], existing_graph := "add", import_shapes := false,
          prefix_cc := false, replace := false, plugin_provenance := false, label := LABEL }
        ("2024-01-01T00:00:00.000Z")
        ⟨"http://s.example/", some ("my malformed label")⟩
        (init_state ("http://s.example/") ("http://d.example/"))
        [⟨.iri ("http://s.example/"), .iri rdfs_label,
          .lit ("my malformed label") none none⟩]) := by
  have h := malformed_label_backup
    { data_graph_iri := "http://d.example/", shapes_graph_iri := "http://s.example/",
      ignore_properties := [], existing_graph := "add", import_shapes := false,
      prefix_cc := false, replace := false, plugin_provenance := false, label := LABEL }
    ("2024-01-01T00:00:00.000Z")
    ⟨"http://s.example/", some ("my malformed label")⟩
    (init_state ("http://s.example/") ("http://d.example/"))
    [⟨.iri ("http://s.example/"), .iri rdfs_label, .lit ("my malformed label") none none⟩]
    ("my malformed label") rfl (by decide) (by decide) (by decide) (by decide) (by decide)
  exact ⟨by decide, by decide, h.1, h.2.1, h.2.2⟩

end ShapesPlugin
